import Mathlib

/-!
# tsh job control (shlab-handout/tsh.c)

A shallow embedding of the job table, the three signal handlers and the
dispatcher paths (`eval`, `builtin_cmd`, `do_bgfg`, `waitfg`) of `tsh.c`.

Conventions of the embedding.

* `int` and `pid_t` values are `Int`; the one place where a value can leave
  the 32-bit range, the result of `atoi`, is reduced modulo 2^32 (`to_int`).
  C strings are `String` / `List Char`.
* The global array `jobs[MAXJOBS]` is a `List job_t`; a `struct job_t *` into
  the array is the index of the slot, `NULL` is `none`.  Every loop
  `for (i = 0; i < MAXJOBS; i++) if (c(jobs[i])) ...` that stops at the first
  slot satisfying `c` is `findSlot c`.
* The globals `jobs`, `nextjid`, `prevpid` are the fields of `Shell`.  Three
  further fields record what the program does to the outside world: `out`
  (one entry per piece of text written to stdout, in order), `sent` (the
  `kill(pid, sig)` calls, in order) and `suspends` (how many times
  `sigsuspend` was entered).
* Asynchrony is explicit: a signal handler invocation is an `Event`, handlers
  run to completion, and every place of the dispatcher where a handler can run
  (the two unblocking `sigprocmask` calls of `eval` around `addjob`, and each
  `sigsuspend`) takes the events delivered there from an `Env`.
* A dereference of `NULL` ends the run in `Outcome.segv`, `exit(n)` in
  `Outcome.exited n`, a `sigsuspend` that is never woken in `Outcome.blocked`.
-/

namespace Tsh

/-! ## Constants -/

def MAXJOBS : Nat := 16

def UNDEF : Int := 0
def FG : Int := 1
def BG : Int := 2
def ST : Int := 3

/-- Modelled from the spec: the signal numbers come from the platform header
`signal.h`, which is not part of the repository.  `SIGINT` is 2 everywhere
(the termination notice of the spec reads `terminated by signal 2`). -/
def SIGINT : Int := 2

/-- Modelled from the spec: `SIGCONT` of `signal.h` (Linux numbering), the
"continue signal" of the spec. -/
def SIGCONT : Int := 18

/-- Modelled from the spec: `SIGTSTP` of `signal.h` (Linux numbering), the
"suspend signal" of the spec. -/
def SIGTSTP : Int := 20

/-! ## Data model -/

/-- The job struct `struct job_t`. -/
structure job_t where
  pid : Int
  jid : Int
  state : Int
  cmdline : String
  deriving DecidableEq

/-- What `waitpid` stores in `status`, as told apart by `WIFSTOPPED`,
`WIFSIGNALED` (with `WTERMSIG`), `WIFEXITED` and `WIFCONTINUED`. -/
inductive wstatus where
  | stopped (sig : Int)
  | signaled (termsig : Int)
  | exited (code : Int)
  | continued
  deriving DecidableEq

/-- One asynchronous handler invocation.  For `sigchld` the list holds the
successive results `(pid, status)` of the handler's `waitpid` calls; the call
after the last entry returns a value `<= 0`. -/
inductive Event where
  | sigchld (reaped : List (Int × wstatus))
  | sigint
  | sigtstp
  deriving DecidableEq

/-- The global variables of the shell together with the record of its
externally visible actions. -/
structure Shell where
  jobs : List job_t
  nextjid : Int
  prevpid : Int
  out : List String
  sent : List (Int × Int)
  suspends : Nat
  deriving DecidableEq

/-- How a piece of shell code ends. -/
inductive Outcome where
  | running (s : Shell)
  | exited (code : Int) (s : Shell)
  | segv (s : Shell)
  | blocked (s : Shell)
  deriving DecidableEq

/-- Sequencing: continue with `f` only when the first part returned normally. -/
def Outcome.andThen (o : Outcome) (f : Shell → Outcome) : Outcome :=
  match o with
  | .running s => f s
  | other => other

/-- What the environment supplies to one call of `eval`: the handlers that run
at the first unblocking `sigprocmask` (before `addjob`), at the second one
(after `addjob`), and at the successive `sigsuspend` calls; whether `fopen`
succeeds; the text of `strerror(errno)`. -/
structure Env where
  w1 : List Event
  w2 : List Event
  wait : List Event
  fopen_ok : Bool
  strerror : String
  deriving DecidableEq

/-! ## Output and signalling primitives -/

/-- Text written to stdout by one `printf`. -/
def printf (s : Shell) (text : String) : Shell :=
  { s with out := s.out ++ [text] }

/-- The call `kill(pid, sig)`. -/
def kill (s : Shell) (pid sig : Int) : Shell :=
  { s with sent := s.sent ++ [(pid, sig)] }

/-- Format `"Job [%d] (%d) stoped by signal %d\n"`. -/
def fmt_stopped (jid pid sig : Int) : String :=
  "Job [" ++ toString jid ++ "] (" ++ toString pid ++ ") stoped by signal "
    ++ toString sig ++ "\n"

/-- Format `"Job [%d] (%d) terminated by signal %d\n"`. -/
def fmt_terminated (jid pid sig : Int) : String :=
  "Job [" ++ toString jid ++ "] (" ++ toString pid ++ ") terminated by signal "
    ++ toString sig ++ "\n"

/-- Format `"[%d] (%d) %s"`. -/
def fmt_banner (jid pid : Int) (cmdline : String) : String :=
  "[" ++ toString jid ++ "] (" ++ toString pid ++ ") " ++ cmdline

/-! ## Job list helper routines -/

/-- Index of the first slot satisfying `c`: the loop
`for (i = 0; i < MAXJOBS; i++) if (c(jobs[i])) return i;`. -/
def findSlot (c : job_t → Bool) : List job_t → Option Nat
  | [] => none
  | j :: js => if c j then some 0 else (findSlot c js).map (· + 1)

/-- clearjob - Clear the entries in a job struct. -/
def clearjob (_job : job_t) : job_t :=
  { pid := 0, jid := 0, state := UNDEF, cmdline := "" }

/-- Read `jobs[i]`. -/
def slot (jobs : List job_t) (i : Nat) : job_t :=
  jobs.getD i (clearjob ⟨0, 0, 0, ""⟩)

/-- initjobs - Initialize the job list. -/
def initjobs (jobs : List job_t) : List job_t :=
  jobs.map clearjob

/-- maxjid - Returns largest allocated job ID. -/
def maxjid (jobs : List job_t) : Int :=
  jobs.foldl (fun max j => if j.jid > max then j.jid else max) 0

/-- addjob - Add a job to the job list. -/
def addjob (s : Shell) (pid state : Int) (cmdline : String) : Int × Shell :=
  if pid < 1 then (0, s)
  else
    match findSlot (fun j => j.pid == 0) s.jobs with
    | some i =>
      (1, { s with
              jobs := s.jobs.set i
                { pid := pid, jid := s.nextjid, state := state, cmdline := cmdline }
              nextjid := if s.nextjid + 1 > MAXJOBS then 1 else s.nextjid + 1 })
    | none => (0, printf s "Tried to create too many jobs\n")

/-- deletejob - Delete a job whose PID=pid from the job list. -/
def deletejob (s : Shell) (pid : Int) : Int × Shell :=
  if pid < 1 then (0, s)
  else
    match findSlot (fun j => j.pid == pid) s.jobs with
    | some i =>
      let jobs := s.jobs.set i (clearjob (slot s.jobs i))
      (1, { s with jobs := jobs, nextjid := maxjid jobs + 1 })
    | none => (0, s)

/-- fgpid - Return PID of current foreground job, 0 if no such job. -/
def fgpid (jobs : List job_t) : Int :=
  match findSlot (fun j => j.state == FG) jobs with
  | some i => (slot jobs i).pid
  | none => 0

/-- getjobpid - Find a job (by PID) on the job list. -/
def getjobpid (jobs : List job_t) (pid : Int) : Option Nat :=
  if pid < 1 then none else findSlot (fun j => j.pid == pid) jobs

/-- getjobjid - Find a job (by JID) on the job list. -/
def getjobjid (jobs : List job_t) (jid : Int) : Option Nat :=
  if jid < 1 then none else findSlot (fun j => j.jid == jid) jobs

/-- pid2jid - Map process ID to job ID. -/
def pid2jid (jobs : List job_t) (pid : Int) : Int :=
  if pid < 1 then 0
  else
    match findSlot (fun j => j.pid == pid) jobs with
    | some i => (slot jobs i).jid
    | none => 0

/-- The assignment `job->state = st` through a pointer to slot `i`. -/
def setstate (jobs : List job_t) (i : Nat) (st : Int) : List job_t :=
  jobs.set i { slot jobs i with state := st }

/-! ## Signal handlers -/

/-- Body of the `while ((pid = waitpid(...)) > 0)` loop of `sigchld_handler`. -/
def sigchld_body (s : Shell) (pid : Int) (status : wstatus) : Outcome :=
  let s1 : Shell := if pid = s.prevpid then { s with prevpid := 0 } else s
  match status with
  | .stopped _ =>
    match getjobpid s1.jobs pid with
    | none => .segv s1
    | some i =>
      if (slot s1.jobs i).state = ST then .running s1
      else
        let s2 : Shell := { s1 with jobs := setstate s1.jobs i ST }
        .running (printf s2 (fmt_stopped (pid2jid s2.jobs pid) pid SIGTSTP))
  | .signaled termsig =>
    let s2 : Shell :=
      if termsig = SIGINT then
        if getjobpid s1.jobs pid ≠ none then
          printf s1 (fmt_terminated (pid2jid s1.jobs pid) pid SIGINT)
        else s1
      else s1
    .running (deletejob s2 pid).2
  | .exited _ => .running (deletejob s1 pid).2
  | .continued => .running (printf s1 "continued\n")

/-- sigchld_handler - reaps all available children; `reaped` lists the results
of the successive `waitpid` calls. -/
def sigchld_handler (s : Shell) : List (Int × wstatus) → Outcome
  | [] => .running s
  | (pid, status) :: rest =>
    if pid > 0 then
      match sigchld_body s pid status with
      | .running s1 => sigchld_handler s1 rest
      | other => other
    else .running s

/-- sigint_handler - ctrl-c: delete the foreground job and forward the signal,
or leave the shell when there is none. -/
def sigint_handler (s : Shell) : Outcome :=
  let pid := fgpid s.jobs
  let s1 : Shell :=
    if getjobpid s.jobs pid ≠ none then
      (deletejob (printf s (fmt_terminated (pid2jid s.jobs pid) pid SIGINT)) pid).2
    else s
  if pid ≠ 0 then .running (kill s1 (-pid) SIGINT) else .exited 0 s1

/-- sigtstp_handler - ctrl-z: mark the foreground job stopped and forward the
signal. -/
def sigtstp_handler (s : Shell) : Outcome :=
  let pid := fgpid s.jobs
  match getjobpid s.jobs pid with
  | some i =>
    let s1 : Shell := { s with jobs := setstate s.jobs i ST }
    let s2 := kill s1 (-pid) SIGTSTP
    .running (printf s2 (fmt_stopped (pid2jid s2.jobs pid) pid SIGTSTP))
  | none => .running s

/-- Run the handler of one event. -/
def deliver (s : Shell) : Event → Outcome
  | .sigchld reaped => sigchld_handler s reaped
  | .sigint => sigint_handler s
  | .sigtstp => sigtstp_handler s

/-- Run the handlers of the events that arrive while the three signals are
unblocked. -/
def deliverAll (s : Shell) : List Event → Outcome
  | [] => .running s
  | e :: rest =>
    match deliver s e with
    | .running s1 => deliverAll s1 rest
    | other => other

/-! ## Dispatcher -/

/-- The C library predicate `isspace` (in the C locale). -/
def isspace (c : Char) : Bool :=
  c = ' ' || c = '\t' || c = '\n' || c = '\r' || c.toNat = 11 || c.toNat = 12

/-- The largest `long` (LP64: 64 bits). -/
def LONG_MAX : Int := 9223372036854775807

/-- Digit loop of `strtol`: the magnitude read so far, which overflow pins at
`LONG_MAX + 1`. -/
def atoi_digits (acc : Int) : List Char → Int
  | [] => acc
  | c :: cs =>
    if c.isDigit then
      atoi_digits (min (acc * 10 + ((c.toNat : Int) - 48)) (LONG_MAX + 1)) cs
    else acc

/-- The C library call `strtol(str, NULL, 10)`: leading white space, an
optional sign, then the longest run of decimal digits (0 when there is none);
a value outside the range of `long` is replaced by `LONG_MAX` or `LONG_MIN`. -/
def strtol (str : List Char) : Int :=
  match str.dropWhile isspace with
  | '-' :: cs => - atoi_digits 0 cs
  | '+' :: cs => min (atoi_digits 0 cs) LONG_MAX
  | cs => min (atoi_digits 0 cs) LONG_MAX

/-- Conversion of a `long` to the 32-bit `int`: the value modulo 2^32, taken in
the range from -2^31 to 2^31 - 1. -/
def to_int (v : Int) : Int :=
  (v + 2147483648) % 4294967296 - 2147483648

/-- The C library function `atoi` as the C library of the platform defines it,
`(int) strtol(str, NULL, 10)`: inside the `int` range the number written in
the text, outside of it the low 32 bits of the `long` that `strtol` returns
(the text `4294967298` is read as 2). -/
def atoi (str : List Char) : Int :=
  to_int (strtol str)

/-- One `sigsuspend(&set)`: the caller sleeps until a handler of a signal that
`set` leaves unblocked has run.  `e` is the next event the environment offers;
without a deliverable event the call never returns. -/
def sigsuspend (s : Shell) (unblocked : Event → Bool) (e : Option Event) : Outcome :=
  let s1 : Shell := { s with suspends := s.suspends + 1 }
  match e with
  | some ev => if unblocked ev then deliver s1 ev else .blocked s1
  | none => .blocked s1

/-- The set `emptyset` of `waitfg`: everything blocked except SIGCHLD and
SIGTSTP. -/
def waitfg_unblocked : Event → Bool
  | .sigchld _ => true
  | .sigtstp => true
  | .sigint => false

/-- The set `emptyset` of `eval`: everything blocked except SIGINT, SIGCHLD
and SIGTSTP. -/
def eval_unblocked : Event → Bool
  | _ => true

/-- waitfg - sends SIGCONT to the group and sleeps through two signals. -/
def waitfg (s : Shell) (pid : Int) (wait : List Event) : Outcome :=
  let s1 := kill s (-pid) SIGCONT
  (sigsuspend s1 waitfg_unblocked wait.head?).andThen fun s2 =>
    sigsuspend s2 waitfg_unblocked wait.tail.head?

/-- do_bgfg - Execute the builtin bg and fg commands. -/
def do_bgfg (s : Shell) (argv : List String) (wait : List Event) : Outcome :=
  let argv0 := argv.getD 0 ""
  match argv.tail.head? with
  | none => .running (printf s (argv0 ++ " command requeires PID or %jobid argument\n"))
  | some arg =>
    let c := arg.data.headD (Char.ofNat 0)
    if c ≠ '%' ∧ (c < '0' ∨ c > '9') then
      .running (printf s (argv0 ++ ": argument must be a PID or %jobid\n"))
    else
      let found : Option Nat × String :=
        if c = '%' then (getjobjid s.jobs (atoi (arg.data.drop 1)), "No such job\n")
        else (getjobpid s.jobs (atoi arg.data), "No such process\n")
      match found.1 with
      | none => .running (printf s found.2)
      | some i =>
        if argv0 = "bg" then
          let s1 : Shell := { s with jobs := setstate s.jobs i BG }
          let job := slot s1.jobs i
          .running (kill (printf s1 (fmt_banner job.jid job.pid job.cmdline)) (-job.pid) SIGCONT)
        else
          let s1 : Shell := { s with jobs := setstate s.jobs i FG }
          waitfg s1 (slot s1.jobs i).pid wait

/-- The text `showbgjobs` prints for one occupied slot on stdout. -/
def jobline (j : job_t) : String :=
  "[" ++ toString j.jid ++ "] (" ++ toString j.pid ++ ") "
    ++ (if j.state = BG ∨ j.state = FG then "Running "
        else if j.state = ST then "Stopped " else "")
    ++ j.cmdline

/-- Loop of `showbgjobs` over the slots.  In the branch that writes to a file
the stream is opened for reading, so nothing reaches the file; a failed
`fopen` makes `fprintf` dereference `NULL`. -/
def showbgjobs_loop (argv : List String) (fopen_ok : Bool) : Shell → List job_t → Outcome
  | s, [] => .running s
  | s, j :: js =>
    if j.pid ≠ 0 then
      if argv.head? ≠ none ∧ argv.head? ≠ some ">" then
        if fopen_ok then showbgjobs_loop argv fopen_ok s js else .segv s
      else showbgjobs_loop argv fopen_ok (printf s (jobline j)) js
    else showbgjobs_loop argv fopen_ok s js

/-- showbgjobs - the `jobs` builtin. -/
def showbgjobs (s : Shell) (argv : List String) (fopen_ok : Bool) : Outcome :=
  showbgjobs_loop argv fopen_ok s s.jobs

/-- builtin_cmd - `none` when the command is not a builtin (return value 0),
otherwise how the builtin ended. -/
def builtin_cmd (s : Shell) (argv : List String) (env : Env) : Option Outcome :=
  match argv.head? with
  | none => some (.segv s)
  | some a0 =>
    if a0 = "quit" then some (.exited 0 s)
    else if a0 = "jobs" then some (showbgjobs s argv.tail env.fopen_ok)
    else if a0 = "bg" ∨ a0 = "fg" then some (do_bgfg s argv env.wait)
    else none

/-- unix_error - unix-style error routine. -/
def unix_error (s : Shell) (msg strerror : String) : Outcome :=
  .exited 1 (printf s (msg ++ ": " ++ strerror ++ "\n"))

/-- The loop `while (prevpid != 0) sigsuspend(&emptyset);` of `eval`. -/
def eval_wait : Shell → List Event → Outcome
  | s, [] => if s.prevpid ≠ 0 then sigsuspend s eval_unblocked none else .running s
  | s, e :: rest =>
    if s.prevpid ≠ 0 then
      match sigsuspend s eval_unblocked (some e) with
      | .running s1 => eval_wait s1 rest
      | other => other
    else .running s

/-- eval - Evaluate the command line.  `argv` and `runbg` are what `parseline`
and `ioredirection` leave, `pid` is the value `fork` returns in the process
being followed (for `pid = 0`, the child, tsh code continues only when `execv`
returns, that is, fails). -/
def eval (s : Shell) (cmdline : String) (argv : List String) (runbg : Bool) (pid : Int)
    (env : Env) : Outcome :=
  match builtin_cmd s argv env with
  | some o => o
  | none =>
    if pid < 0 then unix_error s "fork error" env.strerror
    else if pid = 0 then
      .exited 0 (printf s (argv.getD 0 "" ++ ": Command not found\n"))
    else
      let s1 : Shell := { s with prevpid := pid }
      (deliverAll s1 env.w1).andThen fun s2 =>
        let s3 := (addjob s2 pid (if runbg then BG else FG) cmdline).2
        (deliverAll s3 env.w2).andThen fun s4 =>
          if runbg then
            match getjobpid s4.jobs pid with
            | none => .segv s4
            | some i => .running (printf s4 (fmt_banner (slot s4.jobs i).jid pid cmdline))
          else eval_wait s4 env.wait

/-! ## Runs of the shell -/

/-- The job table of a freshly started shell: the zero-initialised global
array after `initjobs`. -/
def emptyjobs : List job_t :=
  initjobs (List.replicate MAXJOBS ⟨0, 0, 0, ""⟩)

/-- The shell right after `initjobs(jobs)` in `main`. -/
def initShell : Shell :=
  { jobs := emptyjobs, nextjid := 1, prevpid := 0, out := [], sent := [], suspends := 0 }

/-- One thing that happens to the shell in its read/eval loop: a command line
is evaluated, or a handler runs while the shell is reading. -/
inductive Action where
  | command (cmdline : String) (argv : List String) (runbg : Bool) (pid : Int) (env : Env)
  | signal (e : Event)
  deriving DecidableEq

/-- Perform one action. -/
def step (s : Shell) : Action → Outcome
  | .command cmdline argv runbg pid env => eval s cmdline argv runbg pid env
  | .signal e => deliver s e

/-- Perform a sequence of actions; the run ends with the first action that
does not return. -/
def run (s : Shell) : List Action → Outcome
  | [] => .running s
  | a :: rest =>
    match step s a with
    | .running s1 => run s1 rest
    | other => other

/-- The shell state an outcome carries. -/
def Outcome.shell : Outcome → Shell
  | .running s => s
  | .exited _ s => s
  | .segv s => s
  | .blocked s => s

/-- Number of slots in state FG. -/
def countFG (jobs : List job_t) : Nat :=
  (jobs.filter (fun j => j.state == FG)).length

/-- A call of one of the two job-table mutators. -/
inductive JobOp where
  | add (pid state : Int) (cmdline : String)
  | del (pid : Int)
  deriving DecidableEq

/-- Perform one job-table call on the globals. -/
def applyOp (s : Shell) : JobOp → Shell
  | .add pid state cmdline => (addjob s pid state cmdline).2
  | .del pid => (deletejob s pid).2

/-- Perform a sequence of job-table calls. -/
def runOps (s : Shell) (ops : List JobOp) : Shell :=
  ops.foldl applyOp s

/-- No two occupied slots (pid != 0) carry the same jid. -/
def UniqueJid (jobs : List job_t) : Prop :=
  jobs.Pairwise (fun a b => a.pid ≠ 0 → b.pid ≠ 0 → a.jid ≠ b.jid)

instance (jobs : List job_t) : Decidable (UniqueJid jobs) := by
  unfold UniqueJid; infer_instance

/-- Every `addjob` of the sequence is called in a state where `nextjid` is
above the largest jid of the table. -/
def AddsAbove : Shell → List JobOp → Prop
  | _, [] => True
  | s, .add pid state cmdline :: rest =>
    maxjid s.jobs < s.nextjid ∧ AddsAbove (applyOp s (.add pid state cmdline)) rest
  | s, .del pid :: rest => AddsAbove (applyOp s (.del pid)) rest

instance decAddsAbove : (s : Shell) → (ops : List JobOp) → Decidable (AddsAbove s ops)
  | _, [] => isTrue trivial
  | s, .add pid state cmdline :: rest =>
    @instDecidableAnd _ _ _ (decAddsAbove (applyOp s (.add pid state cmdline)) rest)
  | s, .del pid :: rest => decAddsAbove (applyOp s (.del pid)) rest

/-- Sixteen `addjob` calls with pids 1..16 (background jobs). -/
def sixteen_adds : List JobOp :=
  (List.range 16).map (fun k => JobOp.add (k + 1) BG "sleep 9 &\n")

/-- Sixteen `addjob` calls, two `deletejob` calls that keep the jobs with jid 1
and jid 16, then two more `addjob` calls. -/
def wrap_ops : List JobOp :=
  sixteen_adds ++ [.del 2, .del 3, .add 17 BG "sleep 9 &\n", .add 18 BG "sleep 9 &\n"]

/-- Six background jobs are started; `fg %1` is typed and, while `waitfg`
sleeps, jobs 3 and 4 exit (two SIGCHLD wake-ups); `fg %2` is typed and jobs 5
and 6 exit. -/
def fg_twice : List Action :=
  [ .command "/bin/a &\n" ["/bin/a"] true 101 ⟨[], [], [], true, ""⟩,
    .command "/bin/b &\n" ["/bin/b"] true 102 ⟨[], [], [], true, ""⟩,
    .command "/bin/c &\n" ["/bin/c"] true 103 ⟨[], [], [], true, ""⟩,
    .command "/bin/d &\n" ["/bin/d"] true 104 ⟨[], [], [], true, ""⟩,
    .command "/bin/e &\n" ["/bin/e"] true 105 ⟨[], [], [], true, ""⟩,
    .command "/bin/f &\n" ["/bin/f"] true 106 ⟨[], [], [], true, ""⟩,
    .command "fg %1\n" ["fg", "%1"] false 0
      ⟨[], [], [.sigchld [(103, .exited 0)], .sigchld [(104, .exited 0)]], true, ""⟩,
    .command "fg %2\n" ["fg", "%2"] false 0
      ⟨[], [], [.sigchld [(105, .exited 0)], .sigchld [(106, .exited 0)]], true, ""⟩ ]

/-- The shell while it waits, in `eval`, for the foreground job `/bin/a`
(pid 101, jid 1) started from the empty table. -/
def fg_running : Shell :=
  (eval initShell "/bin/a\n" ["/bin/a"] false 101 ⟨[], [], [], true, ""⟩).shell

/-- Sixteen background jobs (pids 1..16) are started, the jobs of pid 2 and
pid 3 exit, two more background jobs (pids 17 and 18) are started, and the job
of pid 18 is stopped by a signal. -/
def dup_jid_trace : List Action :=
  (List.range 16).map
      (fun k => Action.command "/bin/a &\n" ["/bin/a"] true (k + 1) ⟨[], [], [], true, ""⟩) ++
    [ .signal (.sigchld [(2, .exited 0)]),
      .signal (.sigchld [(3, .exited 0)]),
      .command "/bin/a &\n" ["/bin/a"] true 17 ⟨[], [], [], true, ""⟩,
      .command "/bin/a &\n" ["/bin/a"] true 18 ⟨[], [], [], true, ""⟩,
      .signal (.sigchld [(18, .stopped 19)]) ]

/-- The lines `showbgjobs` prints on stdout for a table: one per occupied slot,
in slot order. -/
def listing (jobs : List job_t) : List String :=
  (jobs.filter (fun j => j.pid != 0)).map jobline

/-- Two background jobs (pid 101 with jid 1, pid 102 with jid 2) are started
and the second is stopped by a signal. -/
def stopped_two : Shell :=
  (run initShell
    [ .command "/bin/a &\n" ["/bin/a"] true 101 ⟨[], [], [], true, ""⟩,
      .command "/bin/b &\n" ["/bin/b"] true 102 ⟨[], [], [], true, ""⟩,
      .signal (.sigchld [(102, .stopped 19)]) ]).shell

/-- The table after sixteen `addjob` calls from the initial one: every slot is
occupied. -/
def full_table : Shell :=
  runOps initShell sixteen_adds

/-- Sixteen background command lines, the forks returning pids 1..16. -/
def sixteen_bg : List Action :=
  (List.range 16).map
    (fun k => Action.command "/bin/a &\n" ["/bin/a"] true (k + 1) ⟨[], [], [], true, ""⟩)

/-- The shell at the prompt with sixteen running background jobs: every slot
of the job table is occupied. -/
def full_shell : Shell :=
  (run initShell sixteen_bg).shell

/-- The table after sixteen `addjob` calls (pids 1..16) and the deletion of
pid 5: slot 4 is the only free slot. -/
def one_free : Shell :=
  runOps initShell (sixteen_adds ++ [.del 5])

/-- The background command `/bin/true &` gets pid 100 and its exit is reaped at
the first unblocking `sigprocmask` of `eval`, before `addjob`, so that a stale
entry for pid 100 stays in slot 0; later the foreground command `/bin/a` is
started, the kernel hands out pid 100 again, and the shell waits for it. -/
def stale_fg : Shell :=
  (run initShell
    [ .command "/bin/true &\n" ["/bin/true"] true 100
        ⟨[.sigchld [(100, .exited 0)]], [], [], true, ""⟩,
      .command "/bin/a\n" ["/bin/a"] false 100 ⟨[], [], [], true, ""⟩ ]).shell

/-! ## Facts about the helper routines -/

theorem findSlot_eq_none_iff (c : job_t → Bool) (l : List job_t) :
    findSlot c l = none ↔ ∀ j ∈ l, c j = false := by
  induction l with
  | nil => simp [findSlot]
  | cons a l ih =>
    by_cases h : c a = true
    · simp [findSlot, h]
    · simp [findSlot, h, ih]

theorem findSlot_eq_some_iff (c : job_t → Bool) (l : List job_t) (i : Nat) :
    findSlot c l = some i ↔
      ∃ j, l[i]? = some j ∧ c j = true ∧ ∀ k, k < i → ∀ jk, l[k]? = some jk → c jk = false := by
  induction l generalizing i with
  | nil => simp [findSlot]
  | cons a l ih =>
    by_cases h : c a = true
    · cases i with
      | zero => simp [findSlot, h]
      | succ n =>
        simp only [findSlot, h, if_true]
        constructor
        · intro h0
          simp at h0
        · rintro ⟨j, _, _, hk⟩
          have := hk 0 (Nat.succ_pos n) a (by simp)
          simp [h] at this
    · have hf : c a = false := by simpa using h
      cases i with
      | zero =>
        simp only [findSlot, hf]
        constructor
        · intro h0
          simp at h0
        · rintro ⟨j, hj, hc, _⟩
          simp at hj
          subst hj
          simp [hf] at hc
      | succ n =>
        simp only [findSlot, hf, Bool.false_eq_true, if_false, Option.map_eq_some',
          Nat.add_right_cancel_iff, exists_eq_right, ih n, List.getElem?_cons_succ]
        constructor
        · rintro ⟨j, hj, hc, hk⟩
          refine ⟨j, hj, hc, ?_⟩
          intro k hklt jk hjk
          cases k with
          | zero =>
            simp at hjk
            subst hjk
            exact hf
          | succ m =>
            exact hk m (Nat.lt_of_succ_lt_succ hklt) jk (by simpa using hjk)
        · rintro ⟨j, hj, hc, hk⟩
          refine ⟨j, hj, hc, ?_⟩
          intro k hklt jk hjk
          exact hk (k + 1) (Nat.succ_lt_succ hklt) jk (by simpa using hjk)

theorem slot_of_getElem? {l : List job_t} {i : Nat} {j : job_t} (h : l[i]? = some j) :
    slot l i = j := by
  simp [slot, List.getD, h]

theorem foldl_maxjid_le_iff (l : List job_t) (m0 b : Int) :
    l.foldl (fun max j => if j.jid > max then j.jid else max) m0 ≤ b ↔
      m0 ≤ b ∧ ∀ j ∈ l, j.jid ≤ b := by
  induction l generalizing m0 with
  | nil => simp
  | cons a l ih =>
    simp only [List.foldl_cons, ih, List.mem_cons, forall_eq_or_imp]
    split_ifs with h
    · constructor
      · rintro ⟨h1, h2⟩
        exact ⟨by omega, h1, h2⟩
      · rintro ⟨_, h1, h2⟩
        exact ⟨h1, h2⟩
    · constructor
      · rintro ⟨h1, h2⟩
        exact ⟨h1, by omega, h2⟩
      · rintro ⟨h0, _, h2⟩
        exact ⟨h0, h2⟩

theorem maxjid_le_iff (l : List job_t) (b : Int) :
    maxjid l ≤ b ↔ 0 ≤ b ∧ ∀ j ∈ l, j.jid ≤ b :=
  foldl_maxjid_le_iff l 0 b

theorem maxjid_nonneg (l : List job_t) : 0 ≤ maxjid l :=
  ((maxjid_le_iff l (maxjid l)).1 (le_refl _)).1

theorem jid_le_maxjid {l : List job_t} {j : job_t} (h : j ∈ l) : j.jid ≤ maxjid l :=
  ((maxjid_le_iff l (maxjid l)).1 (le_refl _)).2 j h

theorem mem_set_or {l : List job_t} {i : Nat} {y x : job_t} (h : x ∈ l) :
    x ∈ l.set i y ∨ l[i]? = some x := by
  obtain ⟨n, hn⟩ := List.mem_iff_getElem?.1 h
  by_cases hni : i = n
  · right
    rw [hni]
    exact hn
  · left
    apply List.mem_iff_getElem?.2
    exact ⟨n, by rw [List.getElem?_set_ne hni]; exact hn⟩

theorem pairwise_set {R : job_t → job_t → Prop} {l : List job_t} (i : Nat) (y : job_t)
    (hl : l.Pairwise R) (h1 : ∀ x ∈ l, R x y) (h2 : ∀ x ∈ l, R y x) :
    (l.set i y).Pairwise R := by
  induction l generalizing i with
  | nil => simp
  | cons a l ih =>
    rw [List.pairwise_cons] at hl
    cases i with
    | zero =>
      simp only [List.set_cons_zero, List.pairwise_cons]
      exact ⟨fun x hx => h2 x (List.mem_cons_of_mem _ hx), hl.2⟩
    | succ n =>
      simp only [List.set_cons_succ, List.pairwise_cons]
      refine ⟨?_, ih n hl.2 (fun x hx => h1 x (List.mem_cons_of_mem _ hx))
        (fun x hx => h2 x (List.mem_cons_of_mem _ hx))⟩
      intro x hx
      rcases List.mem_or_eq_of_mem_set hx with hx | hx
      · exact hl.1 x hx
      · subst hx
        exact h1 a (List.mem_cons_self _ _)

theorem addjob_invalid (s : Shell) (pid state : Int) (cmdline : String) (hp : pid < 1) :
    addjob s pid state cmdline = (0, s) := by
  simp [addjob, hp]

theorem addjob_free (s : Shell) (pid state : Int) (cmdline : String) (i : Nat)
    (hp : 1 ≤ pid) (hf : findSlot (fun j => j.pid == 0) s.jobs = some i) :
    addjob s pid state cmdline =
      (1, { s with
              jobs := s.jobs.set i
                { pid := pid, jid := s.nextjid, state := state, cmdline := cmdline }
              nextjid := if s.nextjid + 1 > MAXJOBS then 1 else s.nextjid + 1 }) := by
  have : ¬ pid < 1 := by omega
  simp [addjob, this, hf]

theorem addjob_full (s : Shell) (pid state : Int) (cmdline : String)
    (hp : 1 ≤ pid) (hf : findSlot (fun j => j.pid == 0) s.jobs = none) :
    addjob s pid state cmdline = (0, printf s "Tried to create too many jobs\n") := by
  have : ¬ pid < 1 := by omega
  simp [addjob, this, hf]

theorem deletejob_invalid (s : Shell) (pid : Int) (hp : pid < 1) :
    deletejob s pid = (0, s) := by
  simp [deletejob, hp]

theorem deletejob_found (s : Shell) (pid : Int) (i : Nat)
    (hp : 1 ≤ pid) (hf : findSlot (fun j => j.pid == pid) s.jobs = some i) :
    deletejob s pid =
      (1, { s with
              jobs := s.jobs.set i (clearjob (slot s.jobs i))
              nextjid := maxjid (s.jobs.set i (clearjob (slot s.jobs i))) + 1 }) := by
  have : ¬ pid < 1 := by omega
  simp [deletejob, this, hf]

theorem deletejob_absent (s : Shell) (pid : Int)
    (hf : findSlot (fun j => j.pid == pid) s.jobs = none) :
    deletejob s pid = (0, s) := by
  by_cases hp : pid < 1
  · simp [deletejob, hp]
  · simp [deletejob, hp, hf]

theorem uniqueJid_addjob (s : Shell) (pid state : Int) (cmdline : String)
    (h : UniqueJid s.jobs) (hm : maxjid s.jobs < s.nextjid) :
    UniqueJid (addjob s pid state cmdline).2.jobs := by
  by_cases hp : pid < 1
  · rw [addjob_invalid s pid state cmdline hp]
    exact h
  · cases hf : findSlot (fun j => j.pid == 0) s.jobs with
    | none =>
      rw [addjob_full s pid state cmdline (by omega) hf]
      exact h
    | some i =>
      rw [addjob_free s pid state cmdline i (by omega) hf]
      apply pairwise_set i _ h
      · intro x hx _ _
        have := jid_le_maxjid hx
        show x.jid ≠ s.nextjid
        omega
      · intro x hx _ _
        have := jid_le_maxjid hx
        show s.nextjid ≠ x.jid
        omega

theorem uniqueJid_deletejob (s : Shell) (pid : Int) (h : UniqueJid s.jobs) :
    UniqueJid (deletejob s pid).2.jobs := by
  by_cases hp : pid < 1
  · rw [deletejob_invalid s pid hp]
    exact h
  · cases hf : findSlot (fun j => j.pid == pid) s.jobs with
    | none =>
      rw [deletejob_absent s pid hf]
      exact h
    | some i =>
      rw [deletejob_found s pid i (by omega) hf]
      apply pairwise_set i _ h
      · intro x _ _ hc
        exact absurd rfl hc
      · intro x _ hc
        exact absurd rfl hc

theorem uniqueJid_runOps (ops : List JobOp) :
    ∀ s : Shell, UniqueJid s.jobs → AddsAbove s ops → UniqueJid (runOps s ops).jobs := by
  induction ops with
  | nil => intro s h _; exact h
  | cons op rest ih =>
    intro s h ha
    cases op with
    | add pid state cmdline =>
      exact ih _ (uniqueJid_addjob s pid state cmdline h ha.1) ha.2
    | del pid =>
      exact ih _ (uniqueJid_deletejob s pid h) ha

/-! ## C1: at most one foreground job -/

/-- C1 (the code breaks the invariant): the run `fg_twice` from the initial
empty job table returns to the prompt with the jobs of pid 101 and pid 102
both in state FG, because `waitfg` returns after any two signals and `do_bgfg`
sets FG without looking at the other slots. -/
theorem fg_twice_two_foreground :
    ∃ s, run initShell fg_twice = .running s ∧ countFG s.jobs = 2 ∧
      (slot s.jobs 0).pid = 101 ∧ (slot s.jobs 0).state = FG ∧
      (slot s.jobs 1).pid = 102 ∧ (slot s.jobs 1).state = FG :=
  ⟨(run initShell fg_twice).shell, by decide, by decide, by decide, by decide, by decide,
    by decide⟩

/-! ## C2: job ids of live jobs are distinct -/

/-- C2 (as stated, refuted): after sixteen jobs are added, the jobs of pid 2
and pid 3 deleted and two more jobs added (`wrap_ops`), the job of pid 18 gets
jid 1 while the job of pid 1 still holds jid 1. -/
theorem wrap_ops_duplicate_jid : ¬ UniqueJid (runOps initShell wrap_ops).jobs := by
  decide

/-- C2 (amended): in every job table reachable from the initial one by
`addjob` and `deletejob` calls in which each `addjob` is called while
`nextjid` exceeds the largest jid of the table, no two occupied slots carry
the same jid. -/
theorem unique_jid_while_nextjid_above (ops : List JobOp) (h : AddsAbove initShell ops) :
    UniqueJid (runOps initShell ops).jobs :=
  uniqueJid_runOps ops initShell (by decide) h

theorem unique_jid_while_nextjid_above_witness :
    AddsAbove initShell [.add 5 FG "a\n", .add 6 BG "b &\n", .del 5, .add 7 BG "c &\n"] ∧
      UniqueJid (runOps initShell
        [.add 5 FG "a\n", .add 6 BG "b &\n", .del 5, .add 7 BG "c &\n"]).jobs :=
  ⟨by decide, unique_jid_while_nextjid_above _ (by decide)⟩

/-! ## C3: nextjid and the largest live jid -/

/-- What `addjob` and `deletejob` keep true of the globals: `nextjid` is at
least 1, free slots carry jid 0, and `nextjid` is above the largest jid unless
it has wrapped around (it is then at most MAXJOBS while a jid of at least
MAXJOBS is in the table). -/
theorem nextjid_inv_addjob (s : Shell) (pid state : Int) (cmdline : String)
    (h1 : 1 ≤ s.nextjid) (h0 : ∀ j ∈ s.jobs, j.pid = 0 → j.jid = 0)
    (h : maxjid s.jobs < s.nextjid ∨ (s.nextjid ≤ MAXJOBS ∧ (MAXJOBS : Int) ≤ maxjid s.jobs)) :
    1 ≤ (addjob s pid state cmdline).2.nextjid ∧
    (∀ j ∈ (addjob s pid state cmdline).2.jobs, j.pid = 0 → j.jid = 0) ∧
    (maxjid (addjob s pid state cmdline).2.jobs < (addjob s pid state cmdline).2.nextjid ∨
      ((addjob s pid state cmdline).2.nextjid ≤ MAXJOBS ∧
        (MAXJOBS : Int) ≤ maxjid (addjob s pid state cmdline).2.jobs)) := by
  by_cases hp : pid < 1
  · rw [addjob_invalid s pid state cmdline hp]
    exact ⟨h1, h0, h⟩
  · cases hf : findSlot (fun j => j.pid == 0) s.jobs with
    | none =>
      rw [addjob_full s pid state cmdline (by omega) hf]
      exact ⟨h1, h0, h⟩
    | some i =>
      rw [addjob_free s pid state cmdline i (by omega) hf]
      obtain ⟨j0, hj0, hc0, _⟩ := (findSlot_eq_some_iff _ _ _).1 hf
      have hpid0 : j0.pid = 0 := by simpa using hc0
      have hjid0 : j0.jid = 0 := h0 j0 (List.getElem?_mem hj0) hpid0
      have hilt : i < s.jobs.length := (List.getElem?_eq_some.1 hj0).1
      set y : job_t := { pid := pid, jid := s.nextjid, state := state, cmdline := cmdline }
        with hy
      have hymem : y ∈ s.jobs.set i y := List.mem_set _ _ hilt _
      have hlow : s.nextjid ≤ maxjid (s.jobs.set i y) := jid_le_maxjid hymem
      have hup : maxjid (s.jobs.set i y) ≤ max (maxjid s.jobs) s.nextjid := by
        rw [maxjid_le_iff]
        refine ⟨le_trans (maxjid_nonneg _) (le_max_left _ _), ?_⟩
        intro x hx
        rcases List.mem_or_eq_of_mem_set hx with hx | hx
        · exact le_trans (jid_le_maxjid hx) (le_max_left _ _)
        · subst hx
          exact le_max_right _ _
      have hmono : maxjid s.jobs ≤ maxjid (s.jobs.set i y) := by
        rw [maxjid_le_iff]
        refine ⟨maxjid_nonneg _, ?_⟩
        intro x hx
        rcases mem_set_or (i := i) (y := y) hx with hx | hx
        · exact jid_le_maxjid hx
        · rw [hj0] at hx
          cases hx
          rw [hjid0]
          exact maxjid_nonneg _
      refine ⟨?_, ?_, ?_⟩
      · show 1 ≤ (if s.nextjid + 1 > (MAXJOBS : Int) then 1 else s.nextjid + 1)
        split_ifs <;> omega
      · intro x hx hxp
        rcases List.mem_or_eq_of_mem_set hx with hx | hx
        · exact h0 x hx hxp
        · subst hx
          simp only [hy] at hxp
          omega
      · show maxjid (s.jobs.set i y)
            < (if s.nextjid + 1 > (MAXJOBS : Int) then 1 else s.nextjid + 1) ∨
          ((if s.nextjid + 1 > (MAXJOBS : Int) then 1 else s.nextjid + 1) ≤ (MAXJOBS : Int) ∧
            (MAXJOBS : Int) ≤ maxjid (s.jobs.set i y))
        have hM : (MAXJOBS : Int) = 16 := rfl
        rw [hM] at h ⊢
        rcases h with h | h
        · have : max (maxjid s.jobs) s.nextjid = s.nextjid := max_eq_right (le_of_lt h)
          rw [this] at hup
          split_ifs <;> omega
        · split_ifs <;> omega

theorem nextjid_inv_deletejob (s : Shell) (pid : Int)
    (h1 : 1 ≤ s.nextjid) (h0 : ∀ j ∈ s.jobs, j.pid = 0 → j.jid = 0)
    (h : maxjid s.jobs < s.nextjid ∨ (s.nextjid ≤ MAXJOBS ∧ (MAXJOBS : Int) ≤ maxjid s.jobs)) :
    1 ≤ (deletejob s pid).2.nextjid ∧
    (∀ j ∈ (deletejob s pid).2.jobs, j.pid = 0 → j.jid = 0) ∧
    (maxjid (deletejob s pid).2.jobs < (deletejob s pid).2.nextjid ∨
      ((deletejob s pid).2.nextjid ≤ MAXJOBS ∧
        (MAXJOBS : Int) ≤ maxjid (deletejob s pid).2.jobs)) := by
  by_cases hp : pid < 1
  · rw [deletejob_invalid s pid hp]
    exact ⟨h1, h0, h⟩
  · cases hf : findSlot (fun j => j.pid == pid) s.jobs with
    | none =>
      rw [deletejob_absent s pid hf]
      exact ⟨h1, h0, h⟩
    | some i =>
      rw [deletejob_found s pid i (by omega) hf]
      refine ⟨?_, ?_, Or.inl ?_⟩
      · show 1 ≤ maxjid (s.jobs.set i (clearjob (slot s.jobs i))) + 1
        have := maxjid_nonneg (s.jobs.set i (clearjob (slot s.jobs i)))
        omega
      · intro x hx hxp
        rcases List.mem_or_eq_of_mem_set hx with hx | hx
        · exact h0 x hx hxp
        · subst hx
          rfl
      · show maxjid (s.jobs.set i (clearjob (slot s.jobs i)))
          < maxjid (s.jobs.set i (clearjob (slot s.jobs i))) + 1
        omega

theorem nextjid_inv_runOps (ops : List JobOp) :
    ∀ s : Shell, 1 ≤ s.nextjid → (∀ j ∈ s.jobs, j.pid = 0 → j.jid = 0) →
      (maxjid s.jobs < s.nextjid ∨ (s.nextjid ≤ MAXJOBS ∧ (MAXJOBS : Int) ≤ maxjid s.jobs)) →
      1 ≤ (runOps s ops).nextjid ∧
      (∀ j ∈ (runOps s ops).jobs, j.pid = 0 → j.jid = 0) ∧
      (maxjid (runOps s ops).jobs < (runOps s ops).nextjid ∨
        ((runOps s ops).nextjid ≤ MAXJOBS ∧ (MAXJOBS : Int) ≤ maxjid (runOps s ops).jobs)) := by
  induction ops with
  | nil => intro s h1 h0 h; exact ⟨h1, h0, h⟩
  | cons op rest ih =>
    intro s h1 h0 h
    cases op with
    | add pid state cmdline =>
      obtain ⟨a, b, c⟩ := nextjid_inv_addjob s pid state cmdline h1 h0 h
      exact ih _ a b c
    | del pid =>
      obtain ⟨a, b, c⟩ := nextjid_inv_deletejob s pid h1 h0 h
      exact ih _ a b c

/-- C3 (as stated, refuted): right after the sixteenth `addjob` from the
initial table the largest jid is 16 and `nextjid` has been reset to 1, so
`nextjid > maxjid(jobs)` fails. -/
theorem sixteen_adds_nextjid_not_above :
    (runOps initShell sixteen_adds).nextjid = 1 ∧
      maxjid (runOps initShell sixteen_adds).jobs = 16 ∧
      ¬ maxjid (runOps initShell sixteen_adds).jobs < (runOps initShell sixteen_adds).nextjid := by
  decide

/-- C3 (amended): in every job table reachable from the initial one by
`addjob` and `deletejob` calls, `nextjid` is strictly greater than the largest
jid of the table, except after `addjob` has wrapped `nextjid` around: then
`nextjid` is at most MAXJOBS and the table holds a jid of at least MAXJOBS. -/
theorem nextjid_above_maxjid_or_wrapped (ops : List JobOp) :
    maxjid (runOps initShell ops).jobs < (runOps initShell ops).nextjid ∨
      ((runOps initShell ops).nextjid ≤ MAXJOBS ∧
        (MAXJOBS : Int) ≤ maxjid (runOps initShell ops).jobs) :=
  (nextjid_inv_runOps ops initShell (by decide) (by decide) (by decide)).2.2

/-! ## C4: a foreground child reaped before the wait starts -/

/-- C4 (the code breaks the scenario): `eval` spawns pid 100 in the foreground
from the empty table.  When the exit of pid 100 is reaped at the first
unblocking `sigprocmask`, which precedes `addjob`, the wait loop does not
suspend, yet `eval` returns with pid 100 registered in slot 0 in state FG.
(When the same notification arrives at the second unblocking `sigprocmask`,
after `addjob`, no slot holds pid 100.) -/
theorem eval_reaped_before_addjob_keeps_job :
    (∃ s, eval initShell "/bin/true\n" ["/bin/true"] false 100
          ⟨[.sigchld [(100, .exited 0)]], [], [], true, ""⟩ = .running s ∧
        s.suspends = 0 ∧ s.prevpid = 0 ∧ getjobpid s.jobs 100 = some 0 ∧
        (slot s.jobs 0).pid = 100 ∧ (slot s.jobs 0).state = FG) ∧
    (∃ s, eval initShell "/bin/true\n" ["/bin/true"] false 100
          ⟨[], [.sigchld [(100, .exited 0)]], [], true, ""⟩ = .running s ∧
        s.suspends = 0 ∧ s.prevpid = 0 ∧ getjobpid s.jobs 100 = none) :=
  ⟨⟨(eval initShell "/bin/true\n" ["/bin/true"] false 100
        ⟨[.sigchld [(100, .exited 0)]], [], [], true, ""⟩).shell,
      by decide, by decide, by decide, by decide, by decide, by decide⟩,
    ⟨(eval initShell "/bin/true\n" ["/bin/true"] false 100
        ⟨[], [.sigchld [(100, .exited 0)]], [], true, ""⟩).shell,
      by decide, by decide, by decide, by decide⟩⟩

/-! ## Lookups through a modified table -/

theorem findSlot_set_congr (c : job_t → Bool) {l : List job_t} {i : Nat} {x : job_t}
    (y : job_t) (hx : l[i]? = some x) (hc : c y = c x) :
    findSlot c (l.set i y) = findSlot c l := by
  induction l generalizing i with
  | nil => simp
  | cons a l ih =>
    cases i with
    | zero =>
      simp at hx
      subst hx
      simp [findSlot, hc]
    | succ n =>
      simp at hx
      simp [findSlot, ih hx]

theorem findSlot_of_unique (c : job_t → Bool) {l : List job_t} {i : Nat} {x : job_t}
    (hx : l[i]? = some x) (hc : c x = true)
    (hu : ∀ k jk, l[k]? = some jk → c jk = true → k = i) :
    findSlot c l = some i := by
  rw [findSlot_eq_some_iff]
  refine ⟨x, hx, hc, ?_⟩
  intro k hk jk hjk
  by_contra hne
  have : c jk = true := by simpa using hne
  have := hu k jk hjk this
  omega

theorem findSlot_set_none (c : job_t → Bool) {l : List job_t} {i : Nat} (y : job_t)
    (hy : c y = false) (hu : ∀ k jk, l[k]? = some jk → c jk = true → k = i) :
    findSlot c (l.set i y) = none := by
  rw [findSlot_eq_none_iff]
  intro x hx
  obtain ⟨n, hn⟩ := List.mem_iff_getElem?.1 hx
  by_cases hni : i = n
  · subst hni
    rw [List.getElem?_set] at hn
    simp only [if_true] at hn
    split_ifs at hn
    · cases hn
      exact hy
  · rw [List.getElem?_set_ne hni] at hn
    by_contra hne
    have hcx : c x = true := by simpa using hne
    exact hni (hu n x hn hcx).symm

theorem getjobpid_eq_some {jobs : List job_t} {pid : Int} {i : Nat}
    (h : getjobpid jobs pid = some i) :
    1 ≤ pid ∧ findSlot (fun j => j.pid == pid) jobs = some i := by
  unfold getjobpid at h
  split_ifs at h with hp
  exact ⟨by omega, h⟩

theorem getjobpid_of_findSlot {jobs : List job_t} {pid : Int} (hp : 1 ≤ pid) :
    getjobpid jobs pid = findSlot (fun j => j.pid == pid) jobs := by
  have : ¬ pid < 1 := by omega
  simp [getjobpid, this]

theorem pid2jid_of_findSlot {jobs : List job_t} {pid : Int} {i : Nat} {j : job_t}
    (hp : 1 ≤ pid) (hf : findSlot (fun j => j.pid == pid) jobs = some i)
    (hj : jobs[i]? = some j) : pid2jid jobs pid = j.jid := by
  have : ¬ pid < 1 := by omega
  simp [pid2jid, this, hf, slot_of_getElem? hj]

theorem setstate_eq {jobs : List job_t} {i : Nat} {j : job_t} (st : Int)
    (hj : jobs[i]? = some j) : setstate jobs i st = jobs.set i { j with state := st } := by
  simp [setstate, slot_of_getElem? hj]

theorem getElem?_set_self_of {jobs : List job_t} {i : Nat} {j : job_t} (y : job_t)
    (hj : jobs[i]? = some j) : (jobs.set i y)[i]? = some y := by
  have hlt : i < jobs.length := (List.getElem?_eq_some.1 hj).1
  rw [List.getElem?_set]
  simp [hlt]

theorem sigchld_handler_single (s : Shell) (pid : Int) (status : wstatus) (hp : 1 ≤ pid) :
    sigchld_handler s [(pid, status)] = sigchld_body s pid status := by
  have : pid > 0 := by omega
  simp only [sigchld_handler, this, if_true]
  cases sigchld_body s pid status <;> rfl

/-! ## C5: a repeated stop notification -/

/-- C5: let `pid` be tracked (`getjobpid` finds its job in slot `i`) and its
job running (state FG or BG).  The first stop notification for `pid` sets the
state of slot `i` to ST, changes no other slot and prints exactly one stop
notice (jid and pid of the job, signal SIGTSTP); a second stop notification
right after it returns the very same shell state: no slot changes, nothing is
printed.  The same holds when one handler invocation reaps both
notifications. -/
theorem stop_twice_one_notice (s : Shell) (pid : Int) (i : Nat) (sig1 sig2 : Int)
    (hi : getjobpid s.jobs pid = some i)
    (hrun : (slot s.jobs i).state = FG ∨ (slot s.jobs i).state = BG) :
    ∃ s1,
      sigchld_handler s [(pid, .stopped sig1)] = .running s1 ∧
      s1.jobs = s.jobs.set i { slot s.jobs i with state := ST } ∧
      (slot s1.jobs i).state = ST ∧
      s1.out = s.out ++ [fmt_stopped (slot s.jobs i).jid pid SIGTSTP] ∧
      s1.nextjid = s.nextjid ∧ s1.sent = s.sent ∧
      sigchld_handler s1 [(pid, .stopped sig2)] = .running s1 ∧
      sigchld_handler s [(pid, .stopped sig1), (pid, .stopped sig2)] = .running s1 := by
  obtain ⟨hp, hf⟩ := getjobpid_eq_some hi
  obtain ⟨j, hj, hcj, _⟩ := (findSlot_eq_some_iff _ _ _).1 hf
  have hslot : slot s.jobs i = j := slot_of_getElem? hj
  rw [hslot] at hrun ⊢
  have hnst : j.state ≠ ST := by
    rcases hrun with h | h <;> rw [h] <;> decide
  -- the table after the first notification
  have hset : setstate s.jobs i ST = s.jobs.set i { j with state := ST } := setstate_eq ST hj
  have hj1 : (s.jobs.set i { j with state := ST })[i]? = some { j with state := ST } :=
    getElem?_set_self_of _ hj
  have hf1 : findSlot (fun x => x.pid == pid) (s.jobs.set i { j with state := ST }) = some i := by
    rw [findSlot_set_congr (fun x => x.pid == pid) { j with state := ST } hj rfl]
    exact hf
  have hjid : pid2jid (s.jobs.set i { j with state := ST }) pid = j.jid := by
    rw [pid2jid_of_findSlot hp hf1 hj1]
  have hbody : ∀ (t : Shell) (sig : Int), t.jobs = s.jobs → t.out = s.out →
      sigchld_body t pid (.stopped sig) =
        .running { jobs := s.jobs.set i { j with state := ST }
                   nextjid := t.nextjid
                   prevpid := if pid = t.prevpid then 0 else t.prevpid
                   out := s.out ++ [fmt_stopped j.jid pid SIGTSTP]
                   sent := t.sent
                   suspends := t.suspends } := by
    intro t sig ht hto
    unfold sigchld_body
    by_cases hpp : pid = t.prevpid
    · simp [hpp.symm, ht, hi, hslot, hnst, hset, hjid, printf, hto]
    · simp [hpp, ht, hi, hslot, hnst, hset, hjid, printf, hto]
  have hbody2 : ∀ (t : Shell) (sig : Int), t.jobs = s.jobs.set i { j with state := ST } →
      t.prevpid ≠ pid → sigchld_body t pid (.stopped sig) = .running t := by
    intro t sig ht hpp
    unfold sigchld_body
    have hpp2 : ¬ pid = t.prevpid := fun h => hpp h.symm
    have hg : getjobpid (s.jobs.set i { j with state := ST }) pid = some i := by
      rw [getjobpid_of_findSlot hp]
      exact hf1
    simp [hpp2, ht, hg, slot_of_getElem? hj1]
  have hprev : (if pid = s.prevpid then (0 : Int) else s.prevpid) ≠ pid := by
    split_ifs with h
    · omega
    · exact fun h2 => h h2.symm
  refine ⟨{ jobs := s.jobs.set i { j with state := ST },
            nextjid := s.nextjid,
            prevpid := if pid = s.prevpid then 0 else s.prevpid,
            out := s.out ++ [fmt_stopped j.jid pid SIGTSTP],
            sent := s.sent,
            suspends := s.suspends }, ?_, rfl, ?_, rfl, rfl, rfl, ?_, ?_⟩
  · rw [sigchld_handler_single s pid _ hp]
    exact hbody s sig1 rfl rfl
  · show (slot (s.jobs.set i { j with state := ST }) i).state = ST
    rw [slot_of_getElem? hj1]
  · rw [sigchld_handler_single _ pid _ hp]
    exact hbody2 _ sig2 rfl hprev
  · have hpos : pid > 0 := by omega
    rw [sigchld_handler]
    simp only [hpos, if_true, hbody s sig1 rfl rfl]
    rw [sigchld_handler_single _ pid _ hp]
    exact hbody2 _ sig2 rfl hprev

theorem stop_twice_one_notice_witness :
    ∃ s1,
      sigchld_handler (run initShell [.command "/bin/a &\n" ["/bin/a"] true 101
          ⟨[], [], [], true, ""⟩]).shell [(101, .stopped 19)] = .running s1 ∧
      s1.jobs = (run initShell [.command "/bin/a &\n" ["/bin/a"] true 101
          ⟨[], [], [], true, ""⟩]).shell.jobs.set 0 ⟨101, 1, ST, "/bin/a &\n"⟩ ∧
      s1.out = ["[1] (101) /bin/a &\n", "Job [1] (101) stoped by signal 20\n"] ∧
      sigchld_handler s1 [(101, .stopped 19)] = .running s1 := by
  obtain ⟨s1, h1, h2, _, h4, _, _, h7, _⟩ :=
    stop_twice_one_notice (run initShell [.command "/bin/a &\n" ["/bin/a"] true 101
      ⟨[], [], [], true, ""⟩]).shell 101 0 19 19 (by decide) (by decide)
  refine ⟨s1, h1, ?_, ?_, h7⟩
  · rw [h2]
    decide
  · rw [h4]
    decide

theorem getElem?_slot {l : List job_t} {i : Nat} (h : i < l.length) :
    l[i]? = some (slot l i) := by
  rw [List.getElem?_eq_getElem h]
  simp [slot, List.getD, List.getElem?_eq_getElem h]

theorem findSlot_first (c : job_t → Bool) {l : List job_t} {i : Nat} (hi : i < l.length)
    (hc : c (slot l i) = true) (hfirst : ∀ k, k < i → c (slot l k) = false) :
    findSlot c l = some i := by
  rw [findSlot_eq_some_iff]
  refine ⟨slot l i, getElem?_slot hi, hc, ?_⟩
  intro k hk jk hjk
  rw [← slot_of_getElem? hjk]
  exact hfirst k hk

theorem findSlot_only (c : job_t → Bool) {l : List job_t} {i : Nat} (hi : i < l.length)
    (hc : c (slot l i) = true) (hu : ∀ k, k < l.length → k ≠ i → c (slot l k) = false) :
    findSlot c l = some i :=
  findSlot_first c hi hc (fun k hk => hu k (by omega) (by omega))

theorem findSlot_set_none_of_only (c : job_t → Bool) {l : List job_t} {i : Nat} (y : job_t)
    (hy : c y = false) (hu : ∀ k, k < l.length → k ≠ i → c (slot l k) = false) :
    findSlot c (l.set i y) = none := by
  apply findSlot_set_none c y hy
  intro k jk hjk hcjk
  by_contra hne
  have hlt : k < l.length := (List.getElem?_eq_some.1 hjk).1
  have := hu k hlt hne
  rw [slot_of_getElem? hjk, hcjk] at this
  exact Bool.noConfusion this

theorem fgpid_of_first {jobs : List job_t} {i : Nat} (hi : i < jobs.length)
    (hfg : (slot jobs i).state = FG) (hfirst : ∀ k, k < i → (slot jobs k).state ≠ FG) :
    fgpid jobs = (slot jobs i).pid := by
  have : findSlot (fun j => j.state == FG) jobs = some i :=
    findSlot_first _ hi (by simpa using hfg) (fun k hk => by simpa using hfirst k hk)
  simp [fgpid, this]

theorem fgpid_of_none {jobs : List job_t} (h : ∀ j ∈ jobs, j.state ≠ FG) : fgpid jobs = 0 := by
  have : findSlot (fun j => j.state == FG) jobs = none := by
    rw [findSlot_eq_none_iff]
    intro j hj
    simpa using h j hj
  simp [fgpid, this]

/-! ## C6: the interrupt handler -/

/-- C6 (as stated, refuted): in `stale_fg` slot 0 is the stale BG entry of
pid 100 (jid 1) and slot 1 the foreground job, of the same pid 100 (jid 2).
`sigint_handler` prints the notice with jid 1 and clears slot 0; the
foreground job keeps its slot and its state FG, and `getjobpid` of pid 100
still finds it. -/
theorem sigint_handler_stale_pid_keeps_foreground :
    stale_fg.jobs[0]? = some ⟨100, 1, BG, "/bin/true &\n"⟩ ∧
    stale_fg.jobs[1]? = some ⟨100, 2, FG, "/bin/a\n"⟩ ∧
    fgpid stale_fg.jobs = 100 ∧
    ∃ s1, sigint_handler stale_fg = .running s1 ∧
      s1.out = stale_fg.out ++ ["Job [1] (100) terminated by signal 2\n"] ∧
      s1.sent = [(-100, SIGINT)] ∧
      s1.jobs[0]? = some ⟨0, 0, UNDEF, ""⟩ ∧
      s1.jobs[1]? = some ⟨100, 2, FG, "/bin/a\n"⟩ ∧
      getjobpid s1.jobs 100 = some 1 :=
  ⟨by decide, by decide, by decide, (sigint_handler stale_fg).shell, by decide, by decide,
    by decide, by decide, by decide, by decide⟩

/-- C6 (amended): `sigint_handler` on a table whose foreground job (the first
slot `i` in state FG) is a live job, pid at least 1, whose pid no other slot
carries:
slot `i` is cleared and every other slot kept, `getjobpid` of the pid is then
`NULL`, exactly one notice `Job [jid] (pid) terminated by signal 2` with the
job's own jid and pid is printed, SIGINT is sent to the group `-pid`, and the
handler returns (the shell keeps running; `deletejob` has recomputed
`nextjid`).  On a table with no slot in state FG the shell exits with code 0
and nothing is changed. -/
theorem sigint_handler_foreground_or_exit (s : Shell) :
    (∀ i, i < s.jobs.length → (slot s.jobs i).state = FG →
        (∀ k, k < i → (slot s.jobs k).state ≠ FG) →
        1 ≤ (slot s.jobs i).pid →
        (∀ k, k < s.jobs.length → k ≠ i → (slot s.jobs k).pid ≠ (slot s.jobs i).pid) →
        sigint_handler s =
          .running { s with
            jobs := s.jobs.set i (clearjob (slot s.jobs i))
            nextjid := maxjid (s.jobs.set i (clearjob (slot s.jobs i))) + 1
            out := s.out ++ [fmt_terminated (slot s.jobs i).jid (slot s.jobs i).pid 2]
            sent := s.sent ++ [(-(slot s.jobs i).pid, SIGINT)] } ∧
        getjobpid (s.jobs.set i (clearjob (slot s.jobs i))) (slot s.jobs i).pid = none) ∧
    ((∀ j ∈ s.jobs, j.state ≠ FG) → sigint_handler s = .exited 0 s) := by
  constructor
  · intro i hi hfg hfirst hpid huniq
    have hfgp := fgpid_of_first hi hfg hfirst
    have hfind : findSlot (fun j => j.pid == (slot s.jobs i).pid) s.jobs = some i :=
      findSlot_only _ hi (by simp) (fun k hk hne => by simpa using huniq k hk hne)
    have hget : getjobpid s.jobs (slot s.jobs i).pid = some i := by
      rw [getjobpid_of_findSlot hpid]
      exact hfind
    have hjid : pid2jid s.jobs (slot s.jobs i).pid = (slot s.jobs i).jid :=
      pid2jid_of_findSlot hpid hfind (getElem?_slot hi)
    have hne : (slot s.jobs i).pid ≠ 0 := by omega
    constructor
    · unfold sigint_handler
      simp only [hfgp, hget, hjid, ne_eq, not_false_eq_true, if_true, hne]
      rw [deletejob_found _ _ i hpid (by simpa [printf] using hfind)]
      rfl
    · rw [getjobpid_of_findSlot hpid]
      apply findSlot_set_none_of_only _ _ (by simpa [clearjob] using hne.symm)
      intro k hk hne2
      simpa using huniq k hk hne2
  · intro hno
    have hfgp := fgpid_of_none hno
    unfold sigint_handler
    simp [hfgp, getjobpid]

theorem sigint_handler_foreground_or_exit_witness :
    (sigint_handler fg_running =
        .running { fg_running with
          jobs := emptyjobs
          nextjid := 1
          out := ["Job [1] (101) terminated by signal 2\n"]
          sent := [(-101, 2)] } ∧
      getjobpid emptyjobs 101 = none) ∧
    sigint_handler initShell = .exited 0 initShell := by
  have h := sigint_handler_foreground_or_exit fg_running
  have h1 := h.1 0 (by decide) (by decide) (by decide) (by decide) (by decide)
  refine ⟨?_, (sigint_handler_foreground_or_exit initShell).2 (by decide)⟩
  have e1 : fg_running.jobs.set 0 (clearjob (slot fg_running.jobs 0)) = emptyjobs := by decide
  have e2 : (slot fg_running.jobs 0).pid = 101 := by decide
  have e3 : (slot fg_running.jobs 0).jid = 1 := by decide
  rw [e1, e2, e3] at h1
  exact h1

/-! ## C7: the suspend handler -/

/-- C7 (as stated, refuted): in `stale_fg` slot 0 is the stale BG entry of
pid 100 (jid 1) and slot 1 the foreground job, of the same pid 100 (jid 2).
`sigtstp_handler` sets slot 0 to ST and prints the notice with jid 1; the
foreground job stays in state FG. -/
theorem sigtstp_handler_stale_pid_keeps_foreground :
    stale_fg.jobs[0]? = some ⟨100, 1, BG, "/bin/true &\n"⟩ ∧
    stale_fg.jobs[1]? = some ⟨100, 2, FG, "/bin/a\n"⟩ ∧
    fgpid stale_fg.jobs = 100 ∧
    ∃ s1, sigtstp_handler stale_fg = .running s1 ∧
      s1.out = stale_fg.out ++ ["Job [1] (100) stoped by signal 20\n"] ∧
      s1.sent = [(-100, SIGTSTP)] ∧
      s1.jobs[0]? = some ⟨100, 1, ST, "/bin/true &\n"⟩ ∧
      s1.jobs[1]? = some ⟨100, 2, FG, "/bin/a\n"⟩ :=
  ⟨by decide, by decide, by decide, (sigtstp_handler stale_fg).shell, by decide, by decide,
    by decide, by decide, by decide⟩

/-- C7 (amended): `sigtstp_handler` on a table whose foreground job (the first
slot `i` in state FG) is a live job, pid at least 1, whose pid no other slot
carries:
the state of slot `i` becomes ST while its pid, jid and cmdline and every
other slot stay as they are, SIGTSTP is sent to the group `-pid`, and exactly
one notice `Job [jid] (pid) stoped by signal SIGTSTP` is printed.  On a table
with no slot in state FG the handler returns the unchanged shell state: no
signal, no output. -/
theorem sigtstp_handler_foreground_or_nothing (s : Shell) :
    (∀ i, i < s.jobs.length → (slot s.jobs i).state = FG →
        (∀ k, k < i → (slot s.jobs k).state ≠ FG) →
        1 ≤ (slot s.jobs i).pid →
        (∀ k, k < s.jobs.length → k ≠ i → (slot s.jobs k).pid ≠ (slot s.jobs i).pid) →
        sigtstp_handler s =
          .running { s with
            jobs := s.jobs.set i { slot s.jobs i with state := ST }
            sent := s.sent ++ [(-(slot s.jobs i).pid, SIGTSTP)]
            out := s.out ++
              [fmt_stopped (slot s.jobs i).jid (slot s.jobs i).pid SIGTSTP] }) ∧
    ((∀ j ∈ s.jobs, j.state ≠ FG) → sigtstp_handler s = .running s) := by
  constructor
  · intro i hi hfg hfirst hpid huniq
    have hfgp := fgpid_of_first hi hfg hfirst
    have hfind : findSlot (fun j => j.pid == (slot s.jobs i).pid) s.jobs = some i :=
      findSlot_only _ hi (by simp) (fun k hk hne => by simpa using huniq k hk hne)
    have hget : getjobpid s.jobs (slot s.jobs i).pid = some i := by
      rw [getjobpid_of_findSlot hpid]
      exact hfind
    have hj := getElem?_slot hi
    have hj1 : (s.jobs.set i { slot s.jobs i with state := ST })[i]? =
        some { slot s.jobs i with state := ST } := getElem?_set_self_of _ hj
    have hf1 : findSlot (fun x => x.pid == (slot s.jobs i).pid)
        (s.jobs.set i { slot s.jobs i with state := ST }) = some i := by
      rw [findSlot_set_congr (fun x => x.pid == (slot s.jobs i).pid)
        { slot s.jobs i with state := ST } hj rfl]
      exact hfind
    have hjid : pid2jid (s.jobs.set i { slot s.jobs i with state := ST }) (slot s.jobs i).pid
        = (slot s.jobs i).jid := by
      rw [pid2jid_of_findSlot hpid hf1 hj1]
    unfold sigtstp_handler
    simp only [hfgp, hget, setstate, kill, printf, hjid]
  · intro hno
    have hfgp := fgpid_of_none hno
    unfold sigtstp_handler
    simp [hfgp, getjobpid]

theorem sigtstp_handler_foreground_or_nothing_witness :
    sigtstp_handler fg_running =
        .running { fg_running with
          jobs := fg_running.jobs.set 0 ⟨101, 1, ST, "/bin/a\n"⟩
          sent := [(-101, 20)]
          out := ["Job [1] (101) stoped by signal 20\n"] } ∧
    sigtstp_handler initShell = .running initShell := by
  have h := sigtstp_handler_foreground_or_nothing fg_running
  have h1 := h.1 0 (by decide) (by decide) (by decide) (by decide) (by decide)
  refine ⟨?_, (sigtstp_handler_foreground_or_nothing initShell).2 (by decide)⟩
  have e1 : slot fg_running.jobs 0 = ⟨101, 1, FG, "/bin/a\n"⟩ := by decide
  rw [e1] at h1
  exact h1

/-! ## `atoi` reads back the decimal text of a job id -/

theorem digitChar_facts (d : Nat) (hd : d < 10) :
    (Nat.digitChar d).isDigit = true ∧ (((Nat.digitChar d).toNat : Int) - 48 = d) ∧
      ∀ tl, strtol (Nat.digitChar d :: tl) =
        min (atoi_digits 0 (Nat.digitChar d :: tl)) LONG_MAX := by
  interval_cases d <;> refine ⟨by decide, by decide, fun tl => ?_⟩ <;>
    simp [strtol, List.dropWhile, isspace, Nat.digitChar]

theorem atoi_digits_toDigitsCore (fuel : Nat) :
    ∀ (n : Nat) (ds : List Char), n < fuel →
      (∃ k : Nat, ∀ a : Int, 0 ≤ a → a * 10 ^ k + n ≤ LONG_MAX + 1 →
        atoi_digits a (Nat.toDigitsCore 10 fuel n ds) = atoi_digits (a * 10 ^ k + n) ds) ∧
      (∃ d tl, d < 10 ∧ Nat.toDigitsCore 10 fuel n ds = Nat.digitChar d :: tl) := by
  induction fuel with
  | zero => intro n ds h; omega
  | succ f ih =>
    intro n ds h
    have hd : n % 10 < 10 := Nat.mod_lt _ (by omega)
    obtain ⟨hdig, hval, _⟩ := digitChar_facts (n % 10) hd
    by_cases h0 : n / 10 = 0
    · simp only [Nat.toDigitsCore, h0, if_true]
      refine ⟨⟨1, fun a _ hle => ?_⟩, ⟨n % 10, ds, hd, rfl⟩⟩
      have hn : n % 10 = n := Nat.mod_eq_of_lt (by omega)
      rw [hn] at hdig hval
      rw [pow_one] at hle ⊢
      simp only [atoi_digits, hn, hdig, if_true, hval, min_eq_left hle]
    · simp only [Nat.toDigitsCore, h0, if_false]
      have hlt : n / 10 < f := by omega
      obtain ⟨⟨k, hk⟩, hhead⟩ := ih (n / 10) (Nat.digitChar (n % 10) :: ds) hlt
      refine ⟨⟨k + 1, fun a ha hle => ?_⟩, hhead⟩
      have hdm : (n : Int) = 10 * ((n / 10 : Nat) : Int) + ((n % 10 : Nat) : Int) := by
        have := Nat.div_add_mod n 10
        omega
      have hpow : (0 : Int) ≤ a * 10 ^ k := mul_nonneg ha (by positivity)
      have hsum : (a * 10 ^ k + ((n / 10 : Nat) : Int)) * 10 + ((n % 10 : Nat) : Int)
          = a * 10 ^ (k + 1) + n := by
        rw [pow_succ, hdm]
        ring
      have hq : (0 : Int) ≤ ((n / 10 : Nat) : Int) := Int.natCast_nonneg _
      have hr : (0 : Int) ≤ ((n % 10 : Nat) : Int) := Int.natCast_nonneg _
      have hle2 : (a * 10 ^ k + ((n / 10 : Nat) : Int)) * 10 + ((n % 10 : Nat) : Int)
          ≤ LONG_MAX + 1 := by
        rw [hsum]
        exact hle
      rw [hk a ha (by linarith)]
      simp only [atoi_digits, hdig, if_true, hval, min_eq_left hle2, hsum]
      rw [min_eq_left hle]

/-- The decimal text of a natural number inside the `int` range is read back
by `atoi`: after a `%`, the text of a job id `n` is read as `n`. -/
theorem atoi_toString (n : Nat) (hn : n < 2147483648) :
    atoi (toString (n : Int)).data = n := by
  obtain ⟨⟨k, hk⟩, ⟨d, tl, hd, hhead⟩⟩ := atoi_digits_toDigitsCore (n + 1) n [] (by omega)
  have hs : (toString (n : Int)).data = Nat.toDigitsCore 10 (n + 1) n [] := by
    show (Nat.repr n).data = _
    simp [Nat.repr, Nat.toDigits, List.asString]
  have hL : LONG_MAX = 9223372036854775807 := rfl
  have hval : atoi_digits 0 (Nat.toDigitsCore 10 (n + 1) n []) = n := by
    rw [hk 0 (le_refl _) (by rw [hL]; simp only [zero_mul, zero_add]; omega)]
    simp [atoi_digits]
  unfold atoi
  rw [hs, hhead, (digitChar_facts d hd).2.2 tl, ← hhead, hval]
  have hmin : min (n : Int) LONG_MAX = n := min_eq_left (by rw [hL]; omega)
  rw [hmin]
  unfold to_int
  omega

set_option maxRecDepth 20000 in
/-- Outside the `int` range `atoi` keeps the low 32 bits: `bg %4294967298`
addresses job 2. -/
theorem atoi_out_of_range :
    atoi "4294967298".data = 2 ∧ atoi "99999999999999999999".data = -1 ∧
    atoi "-7".data = -7 ∧ atoi " 12x".data = 12 ∧ atoi "x".data = 0 ∧
    ∃ s1, do_bgfg stopped_two ["bg", "%4294967298"] [] = .running s1 ∧
      s1.jobs[1]? = some ⟨102, 2, BG, "/bin/b &\n"⟩ ∧
      s1.sent = [(-102, SIGCONT)] :=
  ⟨by decide, by decide, by decide, by decide, by decide,
    (do_bgfg stopped_two ["bg", "%4294967298"] []).shell, by decide, by decide, by decide⟩

/-! ## C8: `fg` on a stopped job, then its termination -/

theorem showbgjobs_loop_stdout (fopen_ok : Bool) (l : List job_t) :
    ∀ s : Shell, showbgjobs_loop [] fopen_ok s l = .running { s with out := s.out ++ listing l } := by
  induction l with
  | nil => intro s; simp [showbgjobs_loop, listing]
  | cons a l ih =>
    intro s
    by_cases ha : a.pid = 0
    · simp [showbgjobs_loop, ha, ih, listing]
    · simp [showbgjobs_loop, ha, ih, listing, printf]

theorem deletejob_jobs_of_only (s : Shell) (i : Nat) (hi : i < s.jobs.length)
    (hpid : 1 ≤ (slot s.jobs i).pid)
    (hu : ∀ k, k < s.jobs.length → k ≠ i → (slot s.jobs k).pid ≠ (slot s.jobs i).pid) :
    deletejob s (slot s.jobs i).pid =
      (1, { s with
              jobs := s.jobs.set i (clearjob (slot s.jobs i))
              nextjid := maxjid (s.jobs.set i (clearjob (slot s.jobs i))) + 1 }) :=
  deletejob_found s _ i hpid
    (findSlot_only _ hi (by simp) (fun k hk hne => by simpa using hu k hk hne))

/-- C8 (as stated, refuted): after the run `dup_jid_trace` the table holds the
Stopped job of pid 18 with job id 1 in slot 2, and the running job of pid 1,
which also has job id 1, in slot 0.  `fg %1` sends SIGCONT to the group of
pid 1 and sets slot 0 to FG; the Stopped job stays in state ST. -/
theorem fg_duplicate_jid_resumes_other_job :
    ∃ s, run initShell dup_jid_trace = .running s ∧
      s.jobs[2]? = some ⟨18, 1, ST, "/bin/a &\n"⟩ ∧
      s.jobs[0]? = some ⟨1, 1, BG, "/bin/a &\n"⟩ ∧
      ∃ s1, do_bgfg s ["fg", "%1"] [] = .blocked s1 ∧
        s1.sent = s.sent ++ [(-1, SIGCONT)] ∧
        s1.jobs[2]? = some ⟨18, 1, ST, "/bin/a &\n"⟩ ∧
        s1.jobs[0]? = some ⟨1, 1, FG, "/bin/a &\n"⟩ :=
  ⟨(run initShell dup_jid_trace).shell, by decide, by decide, by decide,
    (do_bgfg (run initShell dup_jid_trace).shell ["fg", "%1"] []).shell,
    by decide, by decide, by decide, by decide⟩

theorem percent_data (txt : String) : ("%" ++ txt).data = '%' :: txt.data := by
  simp [String.data_append]

theorem getjobjid_of_only {jobs : List job_t} {i : Nat} (hi : i < jobs.length)
    (hn : 1 ≤ (slot jobs i).jid)
    (hu : ∀ k, k < jobs.length → k ≠ i → (slot jobs k).jid ≠ (slot jobs i).jid) :
    getjobjid jobs (slot jobs i).jid = some i := by
  have : ¬ (slot jobs i).jid < 1 := by omega
  simp only [getjobjid, this, if_false]
  exact findSlot_only _ hi (by simp) (fun k hk hne => by simpa using hu k hk hne)

/-- C8 (amended): let slot `i` hold a job with job id `n >= 1` (`n` is what
`atoi` reads after the `%`) and pid at least 1, such that no other slot
carries job id `n` and no other slot carries its pid; this covers a Stopped
job.  Then `do_bgfg` on `["fg", "%n"]` sets the state of slot `i` to FG,
leaves every other slot unchanged, sends SIGCONT to the group `-pid` and
sleeps in `waitfg`; and when `sigchld_handler` then processes the exit or the
killing of that pid, slot `i` is cleared, `getjobpid` of the pid is `NULL`, no
slot carries the pid and `showbgjobs` prints one line per remaining occupied
slot, hence none for the pid. -/
theorem fg_unique_job_then_termination (s : Shell) (i : Nat) (txt : String)
    (hi : i < s.jobs.length)
    (hjid : (slot s.jobs i).jid = atoi txt.data)
    (hn : 1 ≤ atoi txt.data)
    (hjonly : ∀ k, k < s.jobs.length → k ≠ i → (slot s.jobs k).jid ≠ (slot s.jobs i).jid)
    (hpid : 1 ≤ (slot s.jobs i).pid)
    (hponly : ∀ k, k < s.jobs.length → k ≠ i → (slot s.jobs k).pid ≠ (slot s.jobs i).pid) :
    do_bgfg s ["fg", "%" ++ txt] [] =
      .blocked { s with
        jobs := s.jobs.set i { slot s.jobs i with state := FG }
        sent := s.sent ++ [(-(slot s.jobs i).pid, SIGCONT)]
        suspends := s.suspends + 1 } ∧
    ∀ status : wstatus, ((∃ c, status = .exited c) ∨ (∃ sig, status = .signaled sig)) →
      ∃ s2,
        sigchld_handler
          { s with
            jobs := s.jobs.set i { slot s.jobs i with state := FG }
            sent := s.sent ++ [(-(slot s.jobs i).pid, SIGCONT)]
            suspends := s.suspends + 1 }
          [((slot s.jobs i).pid, status)] = .running s2 ∧
        s2.jobs = s.jobs.set i (clearjob (slot s.jobs i)) ∧
        getjobpid s2.jobs (slot s.jobs i).pid = none ∧
        (∀ j ∈ s2.jobs, j.pid ≠ (slot s.jobs i).pid) ∧
        ∀ fopen_ok, showbgjobs s2 [] fopen_ok =
          .running { s2 with out := s2.out ++ listing s2.jobs } := by
  have hj := getElem?_slot hi
  have hget : getjobjid s.jobs (atoi txt.data) = some i := by
    rw [← hjid]
    exact getjobjid_of_only hi (by omega) hjonly
  have hj1 : (s.jobs.set i { slot s.jobs i with state := FG })[i]? =
      some { slot s.jobs i with state := FG } := getElem?_set_self_of _ hj
  have hslot1 : slot (s.jobs.set i { slot s.jobs i with state := FG }) i =
      { slot s.jobs i with state := FG } := slot_of_getElem? hj1
  constructor
  · unfold do_bgfg
    simp [percent_data, hget, setstate, hslot1, waitfg, sigsuspend, kill, Outcome.andThen]
  · intro status hstatus
    -- the table seen by the handler
    set t : Shell :=
      { s with
        jobs := s.jobs.set i { slot s.jobs i with state := FG }
        sent := s.sent ++ [(-(slot s.jobs i).pid, SIGCONT)]
        suspends := s.suspends + 1 } with ht
    have hlen : i < t.jobs.length := by simpa [ht] using hi
    have hslott : slot t.jobs i = { slot s.jobs i with state := FG } := hslot1
    have hpidt : (slot t.jobs i).pid = (slot s.jobs i).pid := by rw [hslott]
    have hslotk : ∀ k, k ≠ i → slot t.jobs k = slot s.jobs k := by
      intro k hk
      simp [ht, slot, List.getD, List.getElem?_set_ne (Ne.symm hk)]
    have honlyt : ∀ k, k < t.jobs.length → k ≠ i → (slot t.jobs k).pid ≠ (slot t.jobs i).pid := by
      intro k hk hne
      rw [hslotk k hne, hpidt]
      exact hponly k (by simpa [ht] using hk) hne
    have hsetset : ∀ y, t.jobs.set i y = s.jobs.set i y := by
      intro y
      simp [ht, List.set_set]
    have hdel : ∀ u : Shell, u.jobs = t.jobs →
        (deletejob u (slot s.jobs i).pid).2.jobs = s.jobs.set i (clearjob (slot s.jobs i)) := by
      intro u hu
      have h1 := deletejob_jobs_of_only u i (by rw [hu]; exact hlen)
        (by rw [hu, hpidt]; exact hpid) (by rw [hu]; exact honlyt)
      rw [hu, hpidt] at h1
      rw [h1]
      show t.jobs.set i (clearjob (slot t.jobs i)) = _
      rw [hsetset]
      rfl
    have hnone : getjobpid (s.jobs.set i (clearjob (slot s.jobs i))) (slot s.jobs i).pid
        = none := by
      rw [getjobpid_of_findSlot hpid]
      apply findSlot_set_none_of_only _ _ (by simp [clearjob]; omega)
      intro k hk hne2
      simpa using hponly k hk hne2
    have hall : ∀ j ∈ s.jobs.set i (clearjob (slot s.jobs i)), j.pid ≠ (slot s.jobs i).pid := by
      have h0 := hnone
      rw [getjobpid_of_findSlot hpid, findSlot_eq_none_iff] at h0
      intro j hjm
      simpa using h0 j hjm
    have hshow : ∀ (u : Shell) (fopen_ok : Bool), showbgjobs u [] fopen_ok =
        .running { u with out := u.out ++ listing u.jobs } := by
      intro u fopen_ok
      exact showbgjobs_loop_stdout fopen_ok u.jobs u
    rw [sigchld_handler_single _ _ _ hpid]
    rcases hstatus with ⟨c, rfl⟩ | ⟨sig, rfl⟩
    · refine ⟨_, rfl, ?_, ?_, ?_, fun fo => hshow _ fo⟩
      · exact hdel _ (by split_ifs <;> rfl)
      · rw [hdel _ (by split_ifs <;> rfl)]
        exact hnone
      · rw [hdel _ (by split_ifs <;> rfl)]
        exact hall
    · refine ⟨_, rfl, ?_, ?_, ?_, fun fo => hshow _ fo⟩
      · exact hdel _ (by simp only [printf]; split_ifs <;> rfl)
      · rw [hdel _ (by simp only [printf]; split_ifs <;> rfl)]
        exact hnone
      · rw [hdel _ (by simp only [printf]; split_ifs <;> rfl)]
        exact hall

theorem fg_unique_job_then_termination_witness :
    (slot stopped_two.jobs 1).state = ST ∧ (slot stopped_two.jobs 1).jid = 2 ∧
    do_bgfg stopped_two ["fg", "%2"] [] =
      .blocked { stopped_two with
        jobs := stopped_two.jobs.set 1 ⟨102, 2, FG, "/bin/b &\n"⟩
        sent := [(-102, 18)]
        suspends := 1 } ∧
    ∃ s2,
      sigchld_handler
        { stopped_two with
          jobs := stopped_two.jobs.set 1 ⟨102, 2, FG, "/bin/b &\n"⟩
          sent := [(-102, 18)]
          suspends := 1 }
        [(102, .exited 0)] = .running s2 ∧
      getjobpid s2.jobs 102 = none ∧
      listing s2.jobs = ["[1] (101) Running /bin/a &\n"] := by
  have h := fg_unique_job_then_termination stopped_two 1 "2" (by decide) (by decide)
    (by decide) (by decide) (by decide) (by decide)
  have e1 : slot stopped_two.jobs 1 = ⟨102, 2, ST, "/bin/b &\n"⟩ := by decide
  rw [e1] at h
  refine ⟨by decide, by decide, h.1, ?_⟩
  obtain ⟨s2, h1, h2, h3, _, _⟩ := h.2 (.exited 0) (Or.inl ⟨0, rfl⟩)
  refine ⟨s2, h1, h3, ?_⟩
  rw [h2]
  decide

/-! ## C9: `bg` on a job id nobody carries -/

/-- C9: on a table whose free slots are cleared (jid 0), let `n` be what
`atoi` reads after the `%` as an `int` (0 for a non-numeric suffix, the low
32 bits for a number outside the `int` range) and let no occupied
slot carry job id `n`.  Then `do_bgfg` on `["bg", "%n"]` prints exactly
`No such job\n` and returns; the job table, `nextjid` and the list of sent
signals are unchanged. -/
theorem bg_unknown_jid_no_such_job (s : Shell) (txt : String) (wait : List Event)
    (hfree : ∀ j ∈ s.jobs, j.pid = 0 → j.jid = 0)
    (hno : ∀ j ∈ s.jobs, j.pid ≠ 0 → j.jid ≠ atoi txt.data) :
    do_bgfg s ["bg", "%" ++ txt] wait = .running { s with out := s.out ++ ["No such job\n"] } := by
  have hget : getjobjid s.jobs (atoi txt.data) = none := by
    unfold getjobjid
    split_ifs with h1
    · rfl
    · rw [findSlot_eq_none_iff]
      intro j hj
      by_cases hp : j.pid = 0
      · have := hfree j hj hp
        simp only [beq_eq_false_iff_ne, ne_eq]
        omega
      · simpa using hno j hj hp
  unfold do_bgfg
  simp [percent_data, hget, printf]

theorem bg_unknown_jid_no_such_job_witness :
    do_bgfg stopped_two ["bg", "%7"] [] =
        .running { stopped_two with out := stopped_two.out ++ ["No such job\n"] } ∧
    do_bgfg stopped_two ["bg", "%0"] [] =
        .running { stopped_two with out := stopped_two.out ++ ["No such job\n"] } ∧
    do_bgfg stopped_two ["bg", "%abc"] [] =
        .running { stopped_two with out := stopped_two.out ++ ["No such job\n"] } :=
  ⟨bg_unknown_jid_no_such_job stopped_two "7" [] (by decide) (by decide),
    bg_unknown_jid_no_such_job stopped_two "0" [] (by decide) (by decide),
    bg_unknown_jid_no_such_job stopped_two "abc" [] (by decide) (by decide)⟩

/-! ## C10: `addjob` on a full table -/

/-- C10 (as stated, refuted): on the full table, `addjob` with pid 0 returns 0
without printing the diagnostic (stdout is unchanged). -/
theorem addjob_full_invalid_pid_silent :
    (∀ j ∈ full_table.jobs, j.pid ≠ 0) ∧ full_table.jobs.length = 16 ∧
      addjob full_table 0 FG "/bin/a\n" = (0, full_table) ∧
      (addjob full_table 0 FG "/bin/a\n").2.out = [] := by
  decide

/-- C10 (amended): when every slot is occupied, `addjob` returns 0 and leaves
every slot and `nextjid` unchanged; it prints `Tried to create too many jobs`
when `pid >= 1` and prints nothing when `pid < 1`.  Conversely, when some slot
is free and `pid >= 1`, `addjob` returns 1. -/
theorem addjob_full_or_free (s : Shell) (pid state : Int) (cmdline : String) :
    ((∀ j ∈ s.jobs, j.pid ≠ 0) →
      (1 ≤ pid → addjob s pid state cmdline =
        (0, { s with out := s.out ++ ["Tried to create too many jobs\n"] })) ∧
      (pid < 1 → addjob s pid state cmdline = (0, s))) ∧
    ((∃ j ∈ s.jobs, j.pid = 0) → 1 ≤ pid → (addjob s pid state cmdline).1 = 1) := by
  constructor
  · intro hfull
    constructor
    · intro hp
      have hf : findSlot (fun j => j.pid == 0) s.jobs = none := by
        rw [findSlot_eq_none_iff]
        intro j hj
        simpa using hfull j hj
      rw [addjob_full s pid state cmdline hp hf]
      rfl
    · intro hp
      exact addjob_invalid s pid state cmdline hp
  · rintro ⟨j, hj, hj0⟩ hp
    cases hf : findSlot (fun j => j.pid == 0) s.jobs with
    | none =>
      rw [findSlot_eq_none_iff] at hf
      have := hf j hj
      simp [hj0] at this
    | some i =>
      rw [addjob_free s pid state cmdline i hp hf]

theorem addjob_full_or_free_witness :
    addjob full_table 17 BG "/bin/a &\n" =
        (0, { full_table with out := ["Tried to create too many jobs\n"] }) ∧
    addjob full_table (-1) BG "/bin/a &\n" = (0, full_table) ∧
    (addjob initShell 17 BG "/bin/a &\n").1 = 1 :=
  ⟨((addjob_full_or_free full_table 17 BG "/bin/a &\n").1 (by decide)).1 (by decide),
    ((addjob_full_or_free full_table (-1) BG "/bin/a &\n").1 (by decide)).2 (by decide),
    (addjob_full_or_free initShell 17 BG "/bin/a &\n").2 ⟨⟨0, 0, 0, ""⟩, by decide, rfl⟩
      (by decide)⟩

/-! ## C11: spawning a command when the table is full -/

theorem builtin_cmd_external (s : Shell) (a0 : String) (args : List String) (env : Env)
    (h1 : a0 ≠ "quit") (h2 : a0 ≠ "jobs") (h3 : a0 ≠ "bg") (h4 : a0 ≠ "fg") :
    builtin_cmd s (a0 :: args) env = none := by
  simp [builtin_cmd, h1, h2, h3, h4]

theorem getjobpid_absent {jobs : List job_t} {pid : Int} (h : ∀ j ∈ jobs, j.pid ≠ pid) :
    getjobpid jobs pid = none := by
  unfold getjobpid
  split_ifs
  · rfl
  · rw [findSlot_eq_none_iff]
    intro j hj
    simpa using h j hj

/-- On a full table, the parent branch of `eval` for a background command
line whose pid no slot holds (no handler running in between) prints the
too-many-jobs diagnostic and then dereferences the `NULL` that `getjobpid`
returns. -/
theorem eval_background_full_segv (s : Shell) (cmdline a0 : String) (args : List String)
    (pid : Int) (fopen_ok : Bool) (strerror : String)
    (h1 : a0 ≠ "quit") (h2 : a0 ≠ "jobs") (h3 : a0 ≠ "bg") (h4 : a0 ≠ "fg")
    (hp : 1 ≤ pid) (hfull : ∀ j ∈ s.jobs, j.pid ≠ 0) (hfresh : ∀ j ∈ s.jobs, j.pid ≠ pid) :
    eval s cmdline (a0 :: args) true pid ⟨[], [], [], fopen_ok, strerror⟩ =
      .segv { s with prevpid := pid, out := s.out ++ ["Tried to create too many jobs\n"] } := by
  have hf : findSlot (fun j => j.pid == 0) s.jobs = none := by
    rw [findSlot_eq_none_iff]
    intro j hj
    simpa using hfull j hj
  have hadd : addjob { s with prevpid := pid } pid BG cmdline =
      (0, printf { s with prevpid := pid } "Tried to create too many jobs\n") :=
    addjob_full _ pid BG cmdline hp hf
  have hn1 : ¬ pid < 0 := by omega
  have hn2 : ¬ pid = 0 := by omega
  have hget : getjobpid s.jobs pid = none := getjobpid_absent hfresh
  unfold eval
  rw [builtin_cmd_external s a0 args _ h1 h2 h3 h4]
  simp [hn1, hn2, deliverAll, Outcome.andThen, hadd, printf, hget]

/-- C11 (the code breaks the claim): with all sixteen slots occupied
(`full_shell`), `eval` of the background command line `/bin/a &`, fork
returning pid 17, prints the too-many-jobs diagnostic and then dereferences the
`NULL` returned by `getjobpid`: the shell crashes.  For the foreground command
line `/bin/a` the parent branch completes once the exit of pid 17 is reaped,
with the job table and `nextjid` unchanged; but an interrupt typed while it
waits for that untracked job finds no FG slot and makes the shell exit. -/
theorem eval_full_table_background_crashes :
    (∀ j ∈ full_shell.jobs, j.pid ≠ 0) ∧ full_shell.jobs.length = 16 ∧
    eval full_shell "/bin/a &\n" ["/bin/a"] true 17 ⟨[], [], [], true, ""⟩ =
      .segv { full_shell with
        prevpid := 17
        out := full_shell.out ++ ["Tried to create too many jobs\n"] } ∧
    eval full_shell "/bin/a\n" ["/bin/a"] false 17
        ⟨[], [], [.sigchld [(17, .exited 0)]], true, ""⟩ =
      .running { full_shell with
        prevpid := 0
        out := full_shell.out ++ ["Tried to create too many jobs\n"]
        suspends := 1 } ∧
    eval full_shell "/bin/a\n" ["/bin/a"] false 17 ⟨[], [], [.sigint], true, ""⟩ =
      .exited 0 { full_shell with
        prevpid := 17
        out := full_shell.out ++ ["Tried to create too many jobs\n"]
        suspends := 1 } := by
  decide

/-! ## C12: notifications for a pid no slot holds -/

/-- The exit or the killing (by SIGINT or another signal) of a pid that no slot
holds leaves the table, `nextjid` and stdout unchanged; only the latch
`prevpid` is cleared when it equals the pid. -/
theorem sigchld_untracked_terminated (s : Shell) (pid : Int) (status : wstatus)
    (hp : 1 ≤ pid) (habs : ∀ j ∈ s.jobs, j.pid ≠ pid)
    (hst : (∃ c, status = .exited c) ∨ (∃ sig, status = .signaled sig)) :
    sigchld_handler s [(pid, status)] =
      .running { s with prevpid := if pid = s.prevpid then 0 else s.prevpid } := by
  have hget : getjobpid s.jobs pid = none := getjobpid_absent habs
  have hf : findSlot (fun j => j.pid == pid) s.jobs = none := by
    rw [findSlot_eq_none_iff]
    intro j hj
    simpa using habs j hj
  have hdel : ∀ t : Shell, t.jobs = s.jobs → deletejob t pid = (0, t) :=
    fun t ht => deletejob_absent t pid (by rw [ht]; exact hf)
  rw [sigchld_handler_single s pid status hp]
  rcases hst with ⟨c, rfl⟩ | ⟨sig, rfl⟩
  · unfold sigchld_body
    by_cases hpp : pid = s.prevpid
    · simp [hpp.symm, hdel]
    · simp [hpp, hdel]
  · unfold sigchld_body
    by_cases hpp : pid = s.prevpid
    · by_cases hs : sig = SIGINT
      · simp [hpp.symm, hs, hget, hdel]
      · simp [hpp.symm, hs, hdel]
    · by_cases hs : sig = SIGINT
      · simp [hpp, hs, hget, hdel]
      · simp [hpp, hs, hdel]

/-- The stop of a pid that no slot holds makes the handler dereference the
`NULL` returned by `getjobpid`. -/
theorem sigchld_untracked_stopped (s : Shell) (pid sig : Int)
    (hp : 1 ≤ pid) (habs : ∀ j ∈ s.jobs, j.pid ≠ pid) :
    sigchld_handler s [(pid, .stopped sig)] =
      .segv { s with prevpid := if pid = s.prevpid then 0 else s.prevpid } := by
  have hget : getjobpid s.jobs pid = none := getjobpid_absent habs
  rw [sigchld_handler_single s pid _ hp]
  unfold sigchld_body
  by_cases hpp : pid = s.prevpid
  · simp [hpp.symm, hget]
  · simp [hpp, hget]

/-- C12 (the code breaks the claim): on the full table `full_shell`, whose
slots hold pids 1..16, the handler is a silent no-op for the exit of pid 17 and
for its killing by SIGINT or by SIGKILL, but the stop notification for pid 17
dereferences the `NULL` returned by `getjobpid`: the shell crashes.  The same
happens on the empty table. -/
theorem sigchld_stop_untracked_crashes :
    (∀ j ∈ full_shell.jobs, j.pid ≠ 17) ∧
    sigchld_handler full_shell [(17, .stopped 19)] = .segv full_shell ∧
    sigchld_handler initShell [(17, .stopped 19)] = .segv initShell ∧
    sigchld_handler full_shell [(17, .exited 0)] = .running full_shell ∧
    sigchld_handler full_shell [(17, .signaled SIGINT)] = .running full_shell ∧
    sigchld_handler full_shell [(17, .signaled 9)] = .running full_shell := by
  decide

/-! ## C13: add, delete, add on a table with one free slot -/

theorem slot_set_ne (l : List job_t) {i k : Nat} (y : job_t) (h : k ≠ i) :
    slot (l.set i y) k = slot l k := by
  simp [slot, List.getD, List.getElem?_set_ne (Ne.symm h)]

theorem slot_set_self {l : List job_t} {i : Nat} (y : job_t) (h : i < l.length) :
    slot (l.set i y) i = y :=
  slot_of_getElem? (getElem?_set_self_of y (getElem?_slot h))

theorem slot_mem {l : List job_t} {k : Nat} (h : k < l.length) : slot l k ∈ l :=
  List.getElem?_mem (getElem?_slot h)

theorem findSlot_set_only (c : job_t → Bool) {l : List job_t} {i : Nat} (y : job_t)
    (hi : i < l.length) (hy : c y = true)
    (hu : ∀ k, k < l.length → k ≠ i → c (slot l k) = false) :
    findSlot c (l.set i y) = some i := by
  apply findSlot_only c (by simpa using hi)
  · rw [slot_set_self y hi]
    exact hy
  · intro k hk hne
    rw [slot_set_ne l y hne]
    exact hu k (by simpa using hk) hne

/-- C13: let slot `i` be the only free slot of the table (every other slot is
occupied), `p >= 1` a pid that no slot holds and `q >= 1`.  Then `addjob(p)`
returns 1 and stores the job in slot `i`; `deletejob(p)` returns 1, clears
slot `i`, leaves every other slot as it was and sets `nextjid` to
`maxjid(jobs) + 1`; and the following `addjob(q)` returns 1 and stores its job
in the same slot `i` with jid equal to that recomputed `nextjid`, which
differs from the jid of every other slot. -/
theorem add_delete_add_reuses_slot (s : Shell) (i : Nat) (p q st1 st2 : Int)
    (c1 c2 : String)
    (hi : i < s.jobs.length) (hfree : (slot s.jobs i).pid = 0)
    (hocc : ∀ k, k < s.jobs.length → k ≠ i → (slot s.jobs k).pid ≠ 0)
    (hp : 1 ≤ p) (hfresh : ∀ k, k < s.jobs.length → (slot s.jobs k).pid ≠ p)
    (hq : 1 ≤ q) :
    ∃ s1 s2 s3,
      addjob s p st1 c1 = (1, s1) ∧
      s1.jobs = s.jobs.set i ⟨p, s.nextjid, st1, c1⟩ ∧
      deletejob s1 p = (1, s2) ∧
      s2.jobs = s.jobs.set i (clearjob (slot s.jobs i)) ∧
      s2.nextjid = maxjid s2.jobs + 1 ∧
      addjob s2 q st2 c2 = (1, s3) ∧
      s3.jobs = s.jobs.set i ⟨q, s2.nextjid, st2, c2⟩ ∧
      (slot s3.jobs i).jid = s2.nextjid ∧
      ∀ k, k < s.jobs.length → k ≠ i →
        slot s1.jobs k = slot s.jobs k ∧ slot s2.jobs k = slot s.jobs k ∧
        slot s3.jobs k = slot s.jobs k ∧ (slot s.jobs k).jid ≠ s2.nextjid := by
  have hf0 : findSlot (fun j => j.pid == 0) s.jobs = some i :=
    findSlot_only _ hi (by simpa using hfree) (fun k hk hne => by simpa using hocc k hk hne)
  have hadd1 := addjob_free s p st1 c1 i hp hf0
  have hfp : findSlot (fun j => j.pid == p) (s.jobs.set i ⟨p, s.nextjid, st1, c1⟩) = some i :=
    findSlot_set_only _ _ hi (by simp) (fun k hk _ => by simpa using hfresh k hk)
  have hdel := deletejob_found
    { s with
      jobs := s.jobs.set i ⟨p, s.nextjid, st1, c1⟩
      nextjid := if s.nextjid + 1 > MAXJOBS then 1 else s.nextjid + 1 } p i hp hfp
  simp only [List.set_set] at hdel
  have hcl : ∀ x : job_t, clearjob x = clearjob (slot s.jobs i) := fun _ => rfl
  rw [hcl] at hdel
  have hf2 : findSlot (fun j => j.pid == 0) (s.jobs.set i (clearjob (slot s.jobs i))) = some i :=
    findSlot_set_only _ _ hi (by simp [clearjob])
      (fun k hk hne => by simpa using hocc k hk hne)
  have hadd2 := addjob_free
    { s with
      jobs := s.jobs.set i (clearjob (slot s.jobs i))
      nextjid := maxjid (s.jobs.set i (clearjob (slot s.jobs i))) + 1 } q st2 c2 i hq hf2
  simp only [List.set_set] at hadd2
  refine ⟨_, _, _, hadd1, rfl, hdel, rfl, rfl, hadd2, rfl, ?_, ?_⟩
  · show (slot (s.jobs.set i ⟨q, _, st2, c2⟩) i).jid = _
    rw [slot_set_self _ hi]
  · intro k hk hne
    refine ⟨slot_set_ne _ _ hne, slot_set_ne _ _ hne, slot_set_ne _ _ hne, ?_⟩
    have hmem : slot s.jobs k ∈ s.jobs.set i (clearjob (slot s.jobs i)) := by
      rw [← slot_set_ne s.jobs (clearjob (slot s.jobs i)) hne]
      exact slot_mem (by simpa using hk)
    have := jid_le_maxjid hmem
    show (slot s.jobs k).jid ≠ maxjid (s.jobs.set i (clearjob (slot s.jobs i))) + 1
    omega

theorem add_delete_add_reuses_slot_witness :
    (slot one_free.jobs 4).pid = 0 ∧ one_free.nextjid = 17 ∧
    ∃ s1 s2 s3,
      addjob one_free 17 BG "/bin/p &\n" = (1, s1) ∧
      s1.jobs = one_free.jobs.set 4 ⟨17, 17, BG, "/bin/p &\n"⟩ ∧
      deletejob s1 17 = (1, s2) ∧
      s2.jobs = one_free.jobs ∧
      s2.nextjid = 17 ∧
      addjob s2 18 FG "/bin/q\n" = (1, s3) ∧
      s3.jobs = one_free.jobs.set 4 ⟨18, 17, FG, "/bin/q\n"⟩ := by
  obtain ⟨s1, s2, s3, h1, h2, h3, h4, h5, h6, h7, _, _⟩ :=
    add_delete_add_reuses_slot one_free 4 17 18 BG FG "/bin/p &\n" "/bin/q\n"
      (by decide) (by decide) (by decide) (by decide) (by decide) (by decide)
  have e4 : s2.jobs = one_free.jobs := by
    rw [h4]
    decide
  have e5 : s2.nextjid = 17 := by
    rw [h5, e4]
    decide
  refine ⟨by decide, by decide, s1, s2, s3, h1, ?_, h3, e4, e5, h6, ?_⟩
  · rw [h2]
    decide
  · rw [h7, e5]

end Tsh
